import Mathlib

/-!
# Euler-spiral road geometry: `Geometries/Spiral.cpp`

A shallow embedding of `odr::Spiral` (constructor, `get_point`, `get_bbox`) over exact
arithmetic, followed by the properties of the segment that the code establishes.

Conventions of the embedding.

* `double` is an arbitrary linearly ordered field `F` with a floor function (the reals in
  every theorem that needs trigonometry, the rationals when the definitions are run).
* A computation that leaves the finite numbers yields `none`.  In IEEE arithmetic that is a
  division by zero (`±Inf` or `NaN`) or the square root of a negative number (`NaN`).  The
  evaluator and the arithmetic of `get_point` and `get_bbox` are taken to return a non-finite
  value on a non-finite operand; the one operation of the source that turns `±Inf` back into
  a finite number, the division of a finite number by `c_dot = ±Inf` in the constructor, is
  modelled as such (`fdiv_ext`).
* `int n` of `get_bbox` is an unbounded integer: the embedding of the loop is that of the
  code as long as the loop bounds fit in a 32-bit `int`, that is `⌈|n_end|⌉ + 1 ≤ 2^31 - 1`.
* The `<cmath>` functions are a record `Libm F`; the evaluator `odrSpiral`, whose source is
  not part of `Spiral.cpp`, is an argument of every function that calls it.
-/

namespace odr

/-- Two-dimensional point, `Point2D<double>`. -/
structure Point2D (F : Type) where
  x : F
  y : F
deriving DecidableEq, Repr

/-- Axis-aligned rectangle, `Box2D<double>`. -/
structure Box2D (F : Type) where
  min : Point2D F
  max : Point2D F
deriving DecidableEq, Repr

/-- The functions and the constant of `<cmath>` that `Spiral.cpp` uses:
`std::cos`, `std::sin`, `std::sqrt` and `M_PI`. -/
structure Libm (F : Type) where
  cos : F → F
  sin : F → F
  sqrt : F → F
  pi : F

/-- Result of `odrSpiral(s, cDot, &x, &y, &t)`: position `x`, `y` and heading `t` of the
canonical spiral. -/
structure SpiralOut (F : Type) where
  x : F
  y : F
  t : F
deriving DecidableEq, Repr

/-- The object `odr::Spiral`: the five members inherited from `RoadGeometry`, the two
curvatures, and the three members derived by the constructor.  A derived member is `none`
when its `double` is not finite. -/
structure Spiral (F : Type) where
  s0 : F
  x0 : F
  y0 : F
  hdg0 : F
  length : F
  curv_start : F
  curv_end : F
  c_dot : Option F
  s_start : Option F
  s_end : Option F
deriving DecidableEq, Repr

section Embedding

variable {F : Type} [LinearOrderedField F] [FloorRing F]

/-- Division `a / b` of two doubles, guarded: a zero divisor gives no finite value. -/
def fdiv (a b : F) : Option F :=
  if b = 0 then none else some (a / b)

/-- Square root `std::sqrt(a)`, guarded: a negative argument gives `NaN`. -/
def fsqrt (m : Libm F) (a : F) : Option F :=
  if a < 0 then none else some (m.sqrt a)

/-- Minimum `std::min(a, b)`, which is `(b < a) ? b : a`. -/
def std_min (a b : F) : F :=
  if b < a then b else a

/-- Maximum `std::max(a, b)`, which is `(a < b) ? b : a`. -/
def std_max (a b : F) : F :=
  if a < b then b else a

/-- Quotient `a / c` of a finite double `a` by a double `c` that is finite (`some c`), `±Inf`
(`none` with `c_inf` true) or `NaN` (`none` with `c_inf` false).  A finite number divided by
`±Inf` is `±0`, which is finite; divided by `NaN` it is `NaN`. -/
def fdiv_ext (a : F) (c : Option F) (c_inf : Bool) : Option F :=
  match c with
  | some c => fdiv a c
  | none => if c_inf then some 0 else none

/-- Constructor `Spiral::Spiral(s0, x0, y0, hdg0, length, curv_start, curv_end)`
(lines 15-21).  It stores its arguments and derives `c_dot`, `s_start`, `s_end`;
there is no other statement in its body.  The quotient `c_dot` is `±Inf` when a non-zero
difference is divided by `length = 0` and `NaN` when `0` is divided by `0`; `s_start` and
`s_end` are quotients by that `c_dot`. -/
def Spiral.new (s0 x0 y0 hdg0 length curv_start curv_end : F) : Spiral F :=
  let c_dot := fdiv (curv_end - curv_start) length
  let c_dot_inf : Bool := decide (length = 0 ∧ curv_end - curv_start ≠ 0)
  { s0 := s0, x0 := x0, y0 := y0, hdg0 := hdg0, length := length,
    curv_start := curv_start, curv_end := curv_end,
    c_dot := c_dot,
    s_start := fdiv_ext curv_start c_dot c_dot_inf,
    s_end := fdiv_ext curv_end c_dot c_dot_inf }

/-- Lines 25-29 of `Spiral::get_point`: `s0_spiral = curv_start / c_dot` and the two calls
of the evaluator, at `s0_spiral` and at `s - s0 + s0_spiral`.  The result is the pair
`(x0_spiral, y0_spiral, a0_spiral)`, `(xs_spiral, ys_spiral, as_spiral)`. -/
def Spiral.spiral_states (odrSpiral : F → F → SpiralOut F) (g : Spiral F) (s : F) :
    Option (SpiralOut F × SpiralOut F) := do
  let c_dot ← g.c_dot
  let s0_spiral ← fdiv g.curv_start c_dot
  pure (odrSpiral s0_spiral c_dot, odrSpiral (s - g.s0 + s0_spiral) c_dot)

/-- Function `Spiral::get_point(s, t)` (lines 23-38). -/
def Spiral.get_point (m : Libm F) (odrSpiral : F → F → SpiralOut F) (g : Spiral F)
    (s t : F) : Option (Point2D F) := do
  let (o0, os) ← g.spiral_states odrSpiral s
  let tx := t * m.cos (os.t + m.pi / 2)
  let ty := t * m.sin (os.t + m.pi / 2)
  let hdg := g.hdg0 - o0.t
  let xt := (m.cos hdg * (os.x - o0.x + tx)) - (m.sin hdg * (os.y - o0.y + ty)) + g.x0
  let yt := (m.sin hdg * (os.x - o0.x + tx)) + (m.cos hdg * (os.y - o0.y + ty)) + g.y0
  pure { x := xt, y := yt }

/-- Heading of the segment at `s`, from the locals of `get_point`: the rotation
`hdg = hdg0 - a0_spiral` of line 33 plus the evaluator heading `as_spiral` of line 29. -/
def Spiral.heading (odrSpiral : F → F → SpiralOut F) (g : Spiral F) (s : F) : Option F :=
  (g.spiral_states odrSpiral s).map (fun p => g.hdg0 - p.1.t + p.2.t)

/-- Lambda `f_s_x_extrema_1` of `get_bbox` (line 42). -/
def Spiral.f_s_x_extrema_1 (m : Libm F) (g : Spiral F) (n : Int) : Option F := do
  let c_dot ← g.c_dot
  let r ← fsqrt m (g.curv_start * g.curv_start + c_dot * (-2 * g.hdg0 - 2 * m.pi * n + m.pi))
  let q ← fdiv (r - g.curv_start) c_dot
  pure (q + g.s0)

/-- Lambda `f_s_x_extrema_2` of `get_bbox` (line 43). -/
def Spiral.f_s_x_extrema_2 (m : Libm F) (g : Spiral F) (n : Int) : Option F := do
  let c_dot ← g.c_dot
  let r ← fsqrt m (g.curv_start * g.curv_start + c_dot * (-2 * g.hdg0 - 2 * m.pi * n + m.pi))
  let q ← fdiv (-(r + g.curv_start)) c_dot
  pure (q + g.s0)

/-- Lambda `f_s_y_extrema_1` of `get_bbox` (line 44). -/
def Spiral.f_s_y_extrema_1 (m : Libm F) (g : Spiral F) (n : Int) : Option F := do
  let c_dot ← g.c_dot
  let r ← fsqrt m (g.curv_start * g.curv_start + 2 * c_dot * (-g.hdg0 - m.pi * n))
  let q ← fdiv (-(r + g.curv_start)) c_dot
  pure (q + g.s0)

/-- Lambda `f_s_y_extrema_2` of `get_bbox` (line 45). -/
def Spiral.f_s_y_extrema_2 (m : Libm F) (g : Spiral F) (n : Int) : Option F := do
  let c_dot ← g.c_dot
  let r ← fsqrt m (g.curv_start * g.curv_start + 2 * c_dot * (-g.hdg0 - m.pi * n))
  let q ← fdiv (r - g.curv_start) c_dot
  pure (q + g.s0)

/-- Local `n_end` of `get_bbox` (line 52), for `is_x` true and false. -/
def Spiral.n_end (m : Libm F) (g : Spiral F) (is_x : Bool) : Option F := do
  let c_dot ← g.c_dot
  if is_x then
    fdiv (2 * g.curv_start * g.length + c_dot * g.length * g.length - m.pi) (2 * m.pi)
  else
    fdiv (2 * g.curv_start * g.length + c_dot * g.length * g.length) (2 * m.pi)

/-- The integers visited by the loop header of line 59:
`for (int n = std::floor(-std::abs(n_end)) - 1; n < std::ceil(std::abs(n_end)) + 1; n++)`,
for bounds that fit in `int`; beyond `int` the conversion of the code is undefined. -/
def n_range (n_end : F) : List Int :=
  let lo := Int.floor (-|n_end|) - 1
  let hi := Int.ceil |n_end| + 1
  (List.range (hi - lo).toNat).map (fun (i : Nat) => lo + (i : Int))

/-- Lines 61-63 of `get_bbox`: a candidate is skipped when it is `NaN`, below `s0` or above
`s0 + length`, and pushed onto `s_extremas` otherwise. -/
def Spiral.keep (g : Spiral F) (v : Option F) : List F :=
  match v with
  | none => []
  | some s => if s < g.s0 ∨ s > g.s0 + g.length then [] else [s]

/-- The pair `f_s_extremas` selected at lines 53-56. -/
def Spiral.f_s_extremas (m : Libm F) (g : Spiral F) (is_x : Bool) : List (Int → Option F) :=
  if is_x then [g.f_s_x_extrema_1 m, g.f_s_x_extrema_2 m]
  else [g.f_s_y_extrema_1 m, g.f_s_y_extrema_2 m]

/-- One pass of the outer loop of `get_bbox` (lines 52-65): the candidates pushed for the
given `is_x`, in the order of the pushes. -/
def Spiral.candidates (m : Libm F) (g : Spiral F) (is_x : Bool) : Option (List F) := do
  let n_end ← g.n_end m is_x
  pure ((g.f_s_extremas m is_x).flatMap (fun f => (n_range n_end).flatMap (fun n => g.keep (f n))))

/-- The pairs of a root formula and an integer `n` on which one pass of the outer loop of
`get_bbox` (lines 57-64) computes a root, in loop order: for each of the two formulas of
`f_s_extremas`, every `n` of the loop header. -/
def Spiral.root_calls (m : Libm F) (g : Spiral F) (is_x : Bool) :
    Option (List ((Int → Option F) × Int)) := do
  let n_end ← g.n_end m is_x
  pure ((g.f_s_extremas m is_x).flatMap (fun f => (n_range n_end).map (fun n => (f, n))))

/-- Number of pairs of a root formula and an integer `n` that the loops of one call of
`get_bbox` (lines 50-66) enumerate, for `is_x` true and then false. -/
def Spiral.root_computations (m : Libm F) (g : Spiral F) : Option Nat := do
  let cx ← g.root_calls m true
  let cy ← g.root_calls m false
  pure (cx.length + cy.length)

/-- The vector `s_extremas` after the loops of lines 49-66. -/
def Spiral.s_extremas (m : Libm F) (g : Spiral F) : Option (List F) := do
  let cx ← g.candidates m true
  let cy ← g.candidates m false
  pure ([g.s0, g.s0 + g.length] ++ cx ++ cy)

/-- Body of the reduction loop of `get_bbox` (lines 73-77). -/
def Spiral.bbox_step (m : Libm F) (odrSpiral : F → F → SpiralOut F) (g : Spiral F)
    (bbox : Box2D F) (s : F) : Option (Box2D F) := do
  let pt_2d ← g.get_point m odrSpiral s 0
  pure { min := { x := std_min bbox.min.x pt_2d.x, y := std_min bbox.min.y pt_2d.y },
         max := { x := std_max bbox.max.x pt_2d.x, y := std_max bbox.max.y pt_2d.y } }

/-- Function `Spiral::get_bbox()` (lines 40-81). -/
def Spiral.get_bbox (m : Libm F) (odrSpiral : F → F → SpiralOut F) (g : Spiral F) :
    Option (Box2D F) := do
  let s_extremas ← g.s_extremas m
  let first ← s_extremas.head?
  let p ← g.get_point m odrSpiral first 0
  s_extremas.foldlM (g.bbox_step m odrSpiral) { min := p, max := p }

end Embedding

/-- The real-number `<cmath>`: cosine, sine, square root and the constant `M_PI`. -/
noncomputable def realLibm : Libm ℝ :=
  { cos := Real.cos, sin := Real.sin, sqrt := Real.sqrt, pi := Real.pi }

/-- Modelled from the spec: the evaluator `odrSpiral` of `Spiral/odrSpiral.h`, whose source
is not in `Spiral.cpp`, taken at its contract: the canonical spiral of curvature rate `k`
has position the integral of `(cos (k u^2 / 2), sin (k u^2 / 2))` from `0` to `s` and
heading `k s^2 / 2`. -/
noncomputable def odrSpiralExact (s k : ℝ) : SpiralOut ℝ :=
  { x := ∫ u in (0 : ℝ)..s, Real.cos (k * u ^ 2 / 2),
    y := ∫ u in (0 : ℝ)..s, Real.sin (k * u ^ 2 / 2),
    t := k * s ^ 2 / 2 }

/-! ## Basic facts about the embedding -/

section Basic

variable {F : Type} [LinearOrderedField F]

lemma std_min_eq_min (a b : F) : std_min a b = min a b := by
  unfold std_min
  rcases lt_or_le b a with h | h
  · rw [if_pos h, min_eq_right h.le]
  · rw [if_neg (not_lt.mpr h), min_eq_left h]

lemma std_max_eq_max (a b : F) : std_max a b = max a b := by
  unfold std_max
  rcases lt_or_le a b with h | h
  · rw [if_pos h, max_eq_right h.le]
  · rw [if_neg (not_lt.mpr h), max_eq_left h]

lemma fdiv_eq_some {a b : F} (hb : b ≠ 0) : fdiv a b = some (a / b) := by
  simp [fdiv, hb]

lemma fdiv_zero (a : F) : fdiv a (0 : F) = none := by
  simp [fdiv]

lemma fdiv_isSome_iff (a b : F) : (fdiv a b).isSome ↔ b ≠ 0 := by
  by_cases hb : b = 0 <;> simp [fdiv, hb]

/-- The curvature rate of a segment with distinct boundary curvatures is not zero. -/
lemma rate_ne_zero {length cs ce : F} (hlen : length ≠ 0) (hne : cs ≠ ce) :
    (ce - cs) / length ≠ 0 :=
  div_ne_zero (sub_ne_zero.mpr (Ne.symm hne)) hlen

@[simp] lemma new_s0 (s0 x0 y0 hdg0 length cs ce : F) :
    (Spiral.new s0 x0 y0 hdg0 length cs ce).s0 = s0 := rfl

@[simp] lemma new_hdg0 (s0 x0 y0 hdg0 length cs ce : F) :
    (Spiral.new s0 x0 y0 hdg0 length cs ce).hdg0 = hdg0 := rfl

@[simp] lemma new_length (s0 x0 y0 hdg0 length cs ce : F) :
    (Spiral.new s0 x0 y0 hdg0 length cs ce).length = length := rfl

@[simp] lemma new_curv_start (s0 x0 y0 hdg0 length cs ce : F) :
    (Spiral.new s0 x0 y0 hdg0 length cs ce).curv_start = cs := rfl

@[simp] lemma new_curv_end (s0 x0 y0 hdg0 length cs ce : F) :
    (Spiral.new s0 x0 y0 hdg0 length cs ce).curv_end = ce := rfl

lemma new_c_dot (s0 x0 y0 hdg0 : F) {length : F} (cs ce : F) (hlen : length ≠ 0) :
    (Spiral.new s0 x0 y0 hdg0 length cs ce).c_dot = some ((ce - cs) / length) := by
  simp [Spiral.new, fdiv, fdiv_ext, hlen]

lemma new_c_dot_degenerate (s0 x0 y0 hdg0 : F) {length : F} (c : F) (hlen : length ≠ 0) :
    (Spiral.new s0 x0 y0 hdg0 length c c).c_dot = some 0 := by
  simp [Spiral.new, fdiv, fdiv_ext, hlen]

lemma new_c_dot_zero_length (s0 x0 y0 hdg0 cs ce : F) :
    (Spiral.new s0 x0 y0 hdg0 0 cs ce).c_dot = none := by
  simp [Spiral.new, fdiv, fdiv_ext]

/-- With `length ≠ 0` and distinct curvatures both evaluator calls of `get_point` happen,
at `curv_start / c_dot` and at `s - s0 + curv_start / c_dot`. -/
lemma spiral_states_new (odrSpiral : F → F → SpiralOut F) (s0 x0 y0 hdg0 : F)
    {length cs ce : F} (hlen : length ≠ 0) (hne : cs ≠ ce) (s : F) :
    (Spiral.new s0 x0 y0 hdg0 length cs ce).spiral_states odrSpiral s
      = some (odrSpiral (cs / ((ce - cs) / length)) ((ce - cs) / length),
              odrSpiral (s - s0 + cs / ((ce - cs) / length)) ((ce - cs) / length)) := by
  have hc := rate_ne_zero hlen hne
  simp [Spiral.spiral_states, Spiral.new, fdiv, hlen, hc]

/-- Without a finite non-zero `c_dot` neither evaluator call has a finite argument. -/
lemma spiral_states_degenerate (odrSpiral : F → F → SpiralOut F) (s0 x0 y0 hdg0 length c : F)
    (s : F) : (Spiral.new s0 x0 y0 hdg0 length c c).spiral_states odrSpiral s = none := by
  by_cases hlen : length = 0 <;> simp [Spiral.spiral_states, Spiral.new, fdiv, hlen]

lemma get_point_degenerate (m : Libm F) (odrSpiral : F → F → SpiralOut F)
    (s0 x0 y0 hdg0 length c : F) (s t : F) :
    (Spiral.new s0 x0 y0 hdg0 length c c).get_point m odrSpiral s t = none := by
  simp [Spiral.get_point, spiral_states_degenerate]

lemma get_point_new (m : Libm F) (odrSpiral : F → F → SpiralOut F) (s0 x0 y0 hdg0 : F)
    {length cs ce : F} (hlen : length ≠ 0) (hne : cs ≠ ce) (s t : F) :
    (Spiral.new s0 x0 y0 hdg0 length cs ce).get_point m odrSpiral s t
      = some
        { x := m.cos (hdg0 - (odrSpiral (cs / ((ce - cs) / length)) ((ce - cs) / length)).t)
                * ((odrSpiral (s - s0 + cs / ((ce - cs) / length)) ((ce - cs) / length)).x
                    - (odrSpiral (cs / ((ce - cs) / length)) ((ce - cs) / length)).x
                    + t * m.cos ((odrSpiral (s - s0 + cs / ((ce - cs) / length))
                                    ((ce - cs) / length)).t + m.pi / 2))
              - m.sin (hdg0 - (odrSpiral (cs / ((ce - cs) / length)) ((ce - cs) / length)).t)
                * ((odrSpiral (s - s0 + cs / ((ce - cs) / length)) ((ce - cs) / length)).y
                    - (odrSpiral (cs / ((ce - cs) / length)) ((ce - cs) / length)).y
                    + t * m.sin ((odrSpiral (s - s0 + cs / ((ce - cs) / length))
                                    ((ce - cs) / length)).t + m.pi / 2))
              + x0,
          y := m.sin (hdg0 - (odrSpiral (cs / ((ce - cs) / length)) ((ce - cs) / length)).t)
                * ((odrSpiral (s - s0 + cs / ((ce - cs) / length)) ((ce - cs) / length)).x
                    - (odrSpiral (cs / ((ce - cs) / length)) ((ce - cs) / length)).x
                    + t * m.cos ((odrSpiral (s - s0 + cs / ((ce - cs) / length))
                                    ((ce - cs) / length)).t + m.pi / 2))
              + m.cos (hdg0 - (odrSpiral (cs / ((ce - cs) / length)) ((ce - cs) / length)).t)
                * ((odrSpiral (s - s0 + cs / ((ce - cs) / length)) ((ce - cs) / length)).y
                    - (odrSpiral (cs / ((ce - cs) / length)) ((ce - cs) / length)).y
                    + t * m.sin ((odrSpiral (s - s0 + cs / ((ce - cs) / length))
                                    ((ce - cs) / length)).t + m.pi / 2))
              + y0 } := by
  rw [Spiral.get_point, spiral_states_new odrSpiral s0 x0 y0 hdg0 hlen hne s]
  rfl

end Basic

/-! ## The constructor -/

section Constructor

variable {F : Type} [LinearOrderedField F]

/-- C9. With `length ≠ 0` and `curv_start ≠ curv_end` the constructor derives finite
`c_dot`, `s_start`, `s_end` with `c_dot = (curv_end - curv_start) / length`,
`c_dot * s_start = curv_start`, `c_dot * s_end = curv_end` and `s_end = s_start + length`;
the affine map `s ↦ s - s0 + s_start` sends `s0` to `s_start` and `s0 + length` to `s_end`. -/
theorem constructor_derived_fields (s0 x0 y0 hdg0 length cs ce : F)
    (hlen : length ≠ 0) (hne : cs ≠ ce) :
    ∃ c_dot s_start s_end : F,
      (Spiral.new s0 x0 y0 hdg0 length cs ce).c_dot = some c_dot ∧
      (Spiral.new s0 x0 y0 hdg0 length cs ce).s_start = some s_start ∧
      (Spiral.new s0 x0 y0 hdg0 length cs ce).s_end = some s_end ∧
      c_dot = (ce - cs) / length ∧
      c_dot * s_start = cs ∧
      c_dot * s_end = ce ∧
      s_end = s_start + length ∧
      s0 - s0 + s_start = s_start ∧
      (s0 + length) - s0 + s_start = s_end := by
  have hc : (ce - cs) / length ≠ 0 := rate_ne_zero hlen hne
  have hd : ce - cs ≠ 0 := sub_ne_zero.mpr (Ne.symm hne)
  have hsum : ce / ((ce - cs) / length) = cs / ((ce - cs) / length) + length := by
    field_simp
    ring
  refine ⟨(ce - cs) / length, cs / ((ce - cs) / length), ce / ((ce - cs) / length),
    ?_, ?_, ?_, rfl, ?_, ?_, hsum, ?_, ?_⟩
  · simp [Spiral.new, fdiv, fdiv_ext, hlen]
  · simp [Spiral.new, fdiv, fdiv_ext, hlen, hd]
  · simp [Spiral.new, fdiv, fdiv_ext, hlen, hd]
  · exact mul_div_cancel₀ cs hc
  · exact mul_div_cancel₀ ce hc
  · ring
  · rw [hsum]; ring

/-- C9, at the descriptor `s0 = 0, origin = (0, 0), hdg0 = 0, length = 10,
curv_start = 0, curv_end = 1/10`. -/
theorem constructor_derived_fields_witness :
    ∃ c_dot s_start s_end : ℚ,
      (Spiral.new (0 : ℚ) 0 0 0 10 0 (1 / 10)).c_dot = some c_dot ∧
      (Spiral.new (0 : ℚ) 0 0 0 10 0 (1 / 10)).s_start = some s_start ∧
      (Spiral.new (0 : ℚ) 0 0 0 10 0 (1 / 10)).s_end = some s_end ∧
      c_dot = (1 / 10 - 0) / 10 ∧
      c_dot * s_start = 0 ∧
      c_dot * s_end = 1 / 10 ∧
      s_end = s_start + 10 ∧
      (0 : ℚ) - 0 + s_start = s_start ∧
      ((0 : ℚ) + 10) - 0 + s_start = s_end :=
  constructor_derived_fields 0 0 0 0 10 0 (1 / 10) (by norm_num) (by norm_num)

/-- C7 (counterexample). Constructing with `length = -1` does not fail: the constructor
returns the descriptor with `length = -1`, `c_dot = -1`, `s_start = 0`, `s_end = -1`. -/
theorem constructor_accepts_negative_length :
    (-1 : ℚ) ≤ 0 ∧
    Spiral.new (0 : ℚ) 0 0 0 (-1) 0 1
      = { s0 := 0, x0 := 0, y0 := 0, hdg0 := 0, length := -1, curv_start := 0, curv_end := 1,
          c_dot := some (-1), s_start := some 0, s_end := some (-1) } := by
  refine ⟨by norm_num, ?_⟩
  simp [Spiral.new, fdiv, fdiv_ext]

/-- C7 (amended). The constructor validates nothing and cannot fail: for any seven
numbers, also with `length ≤ 0`, it returns a descriptor, and the descriptor stores the
seven arguments unchanged. -/
theorem constructor_total_unvalidated (s0 x0 y0 hdg0 length cs ce : F) :
    ∃ g : Spiral F, Spiral.new s0 x0 y0 hdg0 length cs ce = g ∧
      g.s0 = s0 ∧ g.x0 = x0 ∧ g.y0 = y0 ∧ g.hdg0 = hdg0 ∧ g.length = length ∧
      g.curv_start = cs ∧ g.curv_end = ce :=
  ⟨Spiral.new s0 x0 y0 hdg0 length cs ce, rfl, rfl, rfl, rfl, rfl, rfl, rfl, rfl⟩

/-- At `length = 0` with distinct curvatures `c_dot` is `±Inf`, and the quotients `s_start`,
`s_end` of a finite number by it are the finite number `0`. -/
lemma new_zero_length_distinct (s0 x0 y0 hdg0 : F) {cs ce : F} (hne : cs ≠ ce) :
    (Spiral.new s0 x0 y0 hdg0 0 cs ce).c_dot = none ∧
    (Spiral.new s0 x0 y0 hdg0 0 cs ce).s_start = some 0 ∧
    (Spiral.new s0 x0 y0 hdg0 0 cs ce).s_end = some 0 := by
  have hd : ce - cs ≠ 0 := sub_ne_zero.mpr (Ne.symm hne)
  simp [Spiral.new, fdiv, fdiv_ext, hd]

/-- At `length = 0` with equal curvatures `c_dot` is `0 / 0`, a `NaN`, and so are `s_start`
and `s_end`. -/
lemma new_zero_length_equal (s0 x0 y0 hdg0 c : F) :
    (Spiral.new s0 x0 y0 hdg0 0 c c).c_dot = none ∧
    (Spiral.new s0 x0 y0 hdg0 0 c c).s_start = none ∧
    (Spiral.new s0 x0 y0 hdg0 0 c c).s_end = none := by
  simp [Spiral.new, fdiv, fdiv_ext]

end Constructor

/-! ## `get_point`: start point and the degenerate curvature rate -/

section Degenerate

variable {F : Type} [LinearOrderedField F]

lemma root_formulas_degenerate (m : Libm F) (s0 x0 y0 hdg0 length c : F) (n : Int) :
    (Spiral.new s0 x0 y0 hdg0 length c c).f_s_x_extrema_1 m n = none ∧
    (Spiral.new s0 x0 y0 hdg0 length c c).f_s_x_extrema_2 m n = none ∧
    (Spiral.new s0 x0 y0 hdg0 length c c).f_s_y_extrema_1 m n = none ∧
    (Spiral.new s0 x0 y0 hdg0 length c c).f_s_y_extrema_2 m n = none := by
  by_cases hlen : length = 0
  · simp [Spiral.f_s_x_extrema_1, Spiral.f_s_x_extrema_2, Spiral.f_s_y_extrema_1,
      Spiral.f_s_y_extrema_2, Spiral.new, fdiv, hlen]
  · simp [Spiral.f_s_x_extrema_1, Spiral.f_s_x_extrema_2, Spiral.f_s_y_extrema_1,
      Spiral.f_s_y_extrema_2, Spiral.new, fdiv, hlen]

lemma get_bbox_degenerate [FloorRing F] (m : Libm F) (odrSpiral : F → F → SpiralOut F)
    (s0 x0 y0 hdg0 length c : F) :
    (Spiral.new s0 x0 y0 hdg0 length c c).get_bbox m odrSpiral = none := by
  unfold Spiral.get_bbox
  cases (Spiral.new s0 x0 y0 hdg0 length c c).s_extremas m with
  | none => rfl
  | some ss =>
    cases ss with
    | nil => rfl
    | cons a l => simp [get_point_degenerate]

/-- C1 (counterexample). The descriptor `s0 = 0, origin = (0, 0), hdg0 = 0, length = 1,
curv_start = curv_end = 0` has positive length, and `get_point(s0, 0)` is not the origin:
`c_dot = 0`, so `s0_spiral = curv_start / c_dot` is no finite number and no finite point
is produced. -/
theorem get_point_start_degenerate :
    (0 : ℝ) < 1 ∧
    (Spiral.new (0 : ℝ) 0 0 0 1 0 0).get_point realLibm odrSpiralExact 0 0 = none ∧
    (Spiral.new (0 : ℝ) 0 0 0 1 0 0).get_point realLibm odrSpiralExact 0 0
      ≠ some { x := 0, y := 0 } := by
  have h := get_point_degenerate realLibm odrSpiralExact 0 0 0 0 1 0 0 0
  refine ⟨by norm_num, h, ?_⟩
  rw [h]
  simp

/-- C1 (amended). For every descriptor with `length > 0` and `curv_start ≠ curv_end`,
`get_point(s0, 0)` is exactly the origin `(x0, y0)`, whatever the evaluator returns. -/
theorem get_point_start_eq_origin (m : Libm F) (odrSpiral : F → F → SpiralOut F)
    (s0 x0 y0 hdg0 length cs ce : F) (hlen : 0 < length) (hne : cs ≠ ce) :
    (Spiral.new s0 x0 y0 hdg0 length cs ce).get_point m odrSpiral s0 0
      = some { x := x0, y := y0 } := by
  rw [get_point_new m odrSpiral s0 x0 y0 hdg0 hlen.ne' hne]
  simp

/-- C1 (amended), at the descriptor `s0 = 0, origin = (0, 0), hdg0 = 0, length = 10,
curv_start = 0, curv_end = 1/10` with the exact evaluator. -/
theorem get_point_start_eq_origin_witness :
    (Spiral.new (0 : ℝ) 0 0 0 10 0 (1 / 10)).get_point realLibm odrSpiralExact 0 0
      = some { x := 0, y := 0 } :=
  get_point_start_eq_origin realLibm odrSpiralExact 0 0 0 0 10 0 (1 / 10)
    (by norm_num) (by norm_num)

/-- C5 (counterexample). For `s0 = 0, origin = (0, 0), hdg0 = 0, length = 1,
curv_start = curv_end = 0` and `s = 1`, `get_point(s, 0)` is not the straight-line point
`(x0 + (s - s0) cos hdg0, y0 + (s - s0) sin hdg0)`: it is no finite point at all. -/
theorem get_point_straight_line_fails :
    (Spiral.new (0 : ℝ) 0 0 0 1 0 0).get_point realLibm odrSpiralExact 1 0 = none ∧
    (Spiral.new (0 : ℝ) 0 0 0 1 0 0).get_point realLibm odrSpiralExact 1 0
      ≠ some { x := 0 + (1 - 0) * Real.cos 0, y := 0 + (1 - 0) * Real.sin 0 } := by
  have h := get_point_degenerate realLibm odrSpiralExact 0 0 0 0 1 0 1 0
  refine ⟨h, ?_⟩
  rw [h]
  simp

/-- C5 (amended). For every descriptor with `curv_start = curv_end = 0` and all `s`, `t`,
`get_point(s, t)` produces no finite point: `c_dot = 0` and `s0_spiral` is the quotient
`0 / 0`; the code has no straight-line branch. -/
theorem get_point_zero_curvature_undefined (m : Libm F) (odrSpiral : F → F → SpiralOut F)
    (s0 x0 y0 hdg0 length : F) (s t : F) :
    (Spiral.new s0 x0 y0 hdg0 length 0 0).get_point m odrSpiral s t = none :=
  get_point_degenerate m odrSpiral s0 x0 y0 hdg0 length 0 s t

/-- C6 (counterexample). For `length = 2` and `curv_start = curv_end = 1/2` the division
by `c_dot` is reached with `c_dot = 0`: the constructor's `s_start` and `s_end`,
`get_point` and `get_bbox` have no finite result. -/
theorem division_by_zero_reached :
    (0 : ℝ) < 2 ∧
    (Spiral.new (0 : ℝ) 0 0 0 2 (1 / 2) (1 / 2)).c_dot = some 0 ∧
    fdiv (1 / 2 : ℝ) 0 = none ∧
    (Spiral.new (0 : ℝ) 0 0 0 2 (1 / 2) (1 / 2)).s_start = none ∧
    (Spiral.new (0 : ℝ) 0 0 0 2 (1 / 2) (1 / 2)).s_end = none ∧
    (Spiral.new (0 : ℝ) 0 0 0 2 (1 / 2) (1 / 2)).get_point realLibm odrSpiralExact 1 0 = none ∧
    (Spiral.new (0 : ℝ) 0 0 0 2 (1 / 2) (1 / 2)).get_bbox realLibm odrSpiralExact = none := by
  refine ⟨by norm_num, ?_, fdiv_zero _, ?_, ?_, get_point_degenerate _ _ _ _ _ _ _ _ _ _,
    get_bbox_degenerate _ _ _ _ _ _ _ _⟩
  · simp [Spiral.new, fdiv, fdiv_ext]
  · simp [Spiral.new, fdiv, fdiv_ext]
  · simp [Spiral.new, fdiv, fdiv_ext]

/-- C6 (amended). For every descriptor with `length > 0` the divisions by `c_dot` of the
constructor (`s_start`, `s_end`) and of `get_point` (`s0_spiral`) are defined if and only
if `curv_start ≠ curv_end`.  For `curv_start = curv_end` there is no separate branch:
`c_dot = 0`, each of the four root formulas of `get_bbox` divides by it, and `get_point`
and `get_bbox` have no finite result. -/
theorem division_by_c_dot_defined_iff [FloorRing F] (m : Libm F)
    (odrSpiral : F → F → SpiralOut F) (s0 x0 y0 hdg0 length cs ce : F) (hlen : 0 < length) :
    ((Spiral.new s0 x0 y0 hdg0 length cs ce).s_start.isSome = true ↔ cs ≠ ce) ∧
    ((Spiral.new s0 x0 y0 hdg0 length cs ce).s_end.isSome = true ↔ cs ≠ ce) ∧
    (∀ s t, ((Spiral.new s0 x0 y0 hdg0 length cs ce).get_point m odrSpiral s t).isSome = true
        ↔ cs ≠ ce) ∧
    (cs = ce →
      (Spiral.new s0 x0 y0 hdg0 length cs ce).c_dot = some 0 ∧
      (∀ n : Int,
        (Spiral.new s0 x0 y0 hdg0 length cs ce).f_s_x_extrema_1 m n = none ∧
        (Spiral.new s0 x0 y0 hdg0 length cs ce).f_s_x_extrema_2 m n = none ∧
        (Spiral.new s0 x0 y0 hdg0 length cs ce).f_s_y_extrema_1 m n = none ∧
        (Spiral.new s0 x0 y0 hdg0 length cs ce).f_s_y_extrema_2 m n = none) ∧
      (∀ s t, (Spiral.new s0 x0 y0 hdg0 length cs ce).get_point m odrSpiral s t = none) ∧
      (Spiral.new s0 x0 y0 hdg0 length cs ce).get_bbox m odrSpiral = none) := by
  have hl : length ≠ 0 := hlen.ne'
  refine ⟨?_, ?_, ?_, ?_⟩
  · by_cases hne : cs = ce
    · simp [Spiral.new, fdiv, fdiv_ext, hl, hne]
    · have hd : ce - cs ≠ 0 := sub_ne_zero.mpr (Ne.symm hne)
      simp [Spiral.new, fdiv, fdiv_ext, hl, hne, hd]
  · by_cases hne : cs = ce
    · simp [Spiral.new, fdiv, fdiv_ext, hl, hne]
    · have hd : ce - cs ≠ 0 := sub_ne_zero.mpr (Ne.symm hne)
      simp [Spiral.new, fdiv, fdiv_ext, hl, hne, hd]
  · intro s t
    by_cases hne : cs = ce
    · subst hne
      simp [get_point_degenerate]
    · simp [get_point_new m odrSpiral s0 x0 y0 hdg0 hl hne, hne]
  · intro h
    subst h
    exact ⟨new_c_dot_degenerate s0 x0 y0 hdg0 cs hl,
      fun n => root_formulas_degenerate m s0 x0 y0 hdg0 length cs n,
      fun s t => get_point_degenerate m odrSpiral s0 x0 y0 hdg0 length cs s t,
      get_bbox_degenerate m odrSpiral s0 x0 y0 hdg0 length cs⟩

/-- C6 (amended), at `length = 2`, `curv_start = curv_end = 1/2`. -/
theorem division_by_c_dot_defined_iff_witness :
    (0 : ℝ) < 2 ∧
    (Spiral.new (0 : ℝ) 0 0 0 2 (1 / 2) (1 / 2)).get_bbox realLibm odrSpiralExact = none :=
  ⟨by norm_num,
    ((division_by_c_dot_defined_iff realLibm odrSpiralExact 0 0 0 0 2 (1 / 2) (1 / 2)
      (by norm_num)).2.2.2 rfl).2.2.2⟩

end Degenerate

/-! ## `get_point`: lateral offset and heading -/

section Heading

lemma heading_new (odrSpiral : ℝ → ℝ → SpiralOut ℝ) (s0 x0 y0 hdg0 : ℝ) {length cs ce : ℝ}
    (hlen : length ≠ 0) (hne : cs ≠ ce)
    (hodr : ∀ σ k : ℝ, (odrSpiral σ k).t = k * σ ^ 2 / 2) (s : ℝ) :
    (Spiral.new s0 x0 y0 hdg0 length cs ce).heading odrSpiral s
      = some (hdg0 + cs * (s - s0) + (ce - cs) / length * (s - s0) ^ 2 / 2) := by
  have hc : (ce - cs) / length ≠ 0 := rate_ne_zero hlen hne
  rw [Spiral.heading, spiral_states_new odrSpiral s0 x0 y0 hdg0 hlen hne s]
  simp only [Option.map_some', hodr, Spiral.new]
  congr 1
  generalize (ce - cs) / length = c at hc
  field_simp
  ring

lemma hasDerivAt_quadratic_heading (hdg0 cs c s0 s : ℝ) :
    HasDerivAt (fun u : ℝ => hdg0 + cs * (u - s0) + c * (u - s0) ^ 2 / 2)
      (cs + c * (s - s0)) s := by
  have h1 : HasDerivAt (fun u : ℝ => u - s0) 1 s := (hasDerivAt_id s).sub_const s0
  have h2 : HasDerivAt (fun u : ℝ => cs * (u - s0)) (cs * 1) s := h1.const_mul cs
  have h3 : HasDerivAt (fun u : ℝ => (u - s0) ^ 2) (((2 : ℕ) : ℝ) * (s - s0) ^ (2 - 1) * 1) s :=
    h1.pow 2
  have h4 := (h3.const_mul c).div_const 2
  have h5 := ((hasDerivAt_const s hdg0).add h2).add h4
  convert h5 using 1
  simp
  ring

/-- C4. For every descriptor, every evaluator and all `s`, `t`: `get_point(s, t)` is
`get_point(s, 0)` displaced by `t (cos (θ + π/2), sin (θ + π/2)) = t (-sin θ, cos θ)`, a
vector of length `|t|`, where `θ = hdg0 - a0_spiral + as_spiral` is the segment heading at
`s`.  Both sides are finite exactly when `length ≠ 0` and `curv_start ≠ curv_end`. -/
theorem lateral_offset_perpendicular (odrSpiral : ℝ → ℝ → SpiralOut ℝ) (g : Spiral ℝ)
    (s0 x0 y0 hdg0 length cs ce : ℝ) (s t : ℝ) :
    g.get_point realLibm odrSpiral s t
        = (g.get_point realLibm odrSpiral s 0).bind (fun p =>
            (g.heading odrSpiral s).map (fun θ =>
              { x := p.x + t * Real.cos (θ + Real.pi / 2),
                y := p.y + t * Real.sin (θ + Real.pi / 2) })) ∧
    g.get_point realLibm odrSpiral s t
        = (g.get_point realLibm odrSpiral s 0).bind (fun p =>
            (g.heading odrSpiral s).map (fun θ =>
              { x := p.x + t * (-Real.sin θ), y := p.y + t * Real.cos θ })) ∧
    (∀ θ : ℝ, Real.sqrt ((t * (-Real.sin θ)) ^ 2 + (t * Real.cos θ) ^ 2) = |t|) ∧
    (((Spiral.new s0 x0 y0 hdg0 length cs ce).get_point realLibm odrSpiral s t).isSome = true
        ↔ length ≠ 0 ∧ cs ≠ ce) ∧
    (((Spiral.new s0 x0 y0 hdg0 length cs ce).heading odrSpiral s).isSome = true
        ↔ length ≠ 0 ∧ cs ≠ ce) := by
  have key : g.get_point realLibm odrSpiral s t
        = (g.get_point realLibm odrSpiral s 0).bind (fun p =>
            (g.heading odrSpiral s).map (fun θ =>
              { x := p.x + t * Real.cos (θ + Real.pi / 2),
                y := p.y + t * Real.sin (θ + Real.pi / 2) })) := by
    unfold Spiral.get_point Spiral.heading
    cases g.spiral_states odrSpiral s with
    | none => rfl
    | some p =>
      obtain ⟨o0, os⟩ := p
      have e : g.hdg0 - o0.t + os.t + Real.pi / 2 = (g.hdg0 - o0.t) + (os.t + Real.pi / 2) := by
        ring
      simp only [Option.bind_eq_bind, Option.some_bind, Option.pure_def, Option.map_some',
        realLibm, e, Real.cos_add (g.hdg0 - o0.t), Real.sin_add (g.hdg0 - o0.t)]
      congr 2 <;> ring
  refine ⟨key, ?_, ?_, ?_, ?_⟩
  · rw [key]
    simp only [Real.cos_add_pi_div_two, Real.sin_add_pi_div_two]
  · intro θ
    have h : (t * (-Real.sin θ)) ^ 2 + (t * Real.cos θ) ^ 2 = t ^ 2 := by
      have := Real.sin_sq_add_cos_sq θ
      nlinarith [this]
    rw [h, Real.sqrt_sq_eq_abs]
  · by_cases hlen : length = 0
    · subst hlen
      simp [Spiral.get_point, Spiral.spiral_states, new_c_dot_zero_length]
    · by_cases hne : cs = ce
      · subst hne
        simp [get_point_degenerate]
      · simp [get_point_new realLibm odrSpiral s0 x0 y0 hdg0 hlen hne, hlen, hne]
  · by_cases hlen : length = 0
    · subst hlen
      simp [Spiral.heading, Spiral.spiral_states, new_c_dot_zero_length]
    · by_cases hne : cs = ce
      · subst hne
        simp [Spiral.heading, spiral_states_degenerate]
      · simp [Spiral.heading, spiral_states_new odrSpiral s0 x0 y0 hdg0 hlen hne, hlen, hne]

/-- C8. For `length > 0`, `curv_start ≠ curv_end` and an evaluator whose heading output is
`k σ^2 / 2`, the heading used by `get_point`, `hdg0 - a0_spiral + as_spiral`, is
`hdg0 + curv_start (s - s0) + c_dot (s - s0)^2 / 2` with `c_dot = (curv_end - curv_start) /
length`.  It is `hdg0` at `s0`; its derivative, the curvature, is
`curv_start + c_dot (s - s0)`, which is `curv_start` at `s0` and `curv_end` at
`s0 + length`. -/
theorem heading_quadratic_curvature_linear (odrSpiral : ℝ → ℝ → SpiralOut ℝ)
    (s0 x0 y0 hdg0 length cs ce : ℝ) (hlen : 0 < length) (hne : cs ≠ ce)
    (hodr : ∀ σ k : ℝ, (odrSpiral σ k).t = k * σ ^ 2 / 2) :
    (Spiral.new s0 x0 y0 hdg0 length cs ce).c_dot = some ((ce - cs) / length) ∧
    (∀ s : ℝ, (Spiral.new s0 x0 y0 hdg0 length cs ce).heading odrSpiral s
        = some (hdg0 + cs * (s - s0) + (ce - cs) / length * (s - s0) ^ 2 / 2)) ∧
    (Spiral.new s0 x0 y0 hdg0 length cs ce).heading odrSpiral s0 = some hdg0 ∧
    (∀ s : ℝ, HasDerivAt
        (fun u : ℝ => ((Spiral.new s0 x0 y0 hdg0 length cs ce).heading odrSpiral u).getD 0)
        (cs + (ce - cs) / length * (s - s0)) s) ∧
    cs + (ce - cs) / length * (s0 - s0) = cs ∧
    cs + (ce - cs) / length * (s0 + length - s0) = ce := by
  have hl : length ≠ 0 := hlen.ne'
  have hh := heading_new odrSpiral s0 x0 y0 hdg0 hl hne hodr
  refine ⟨new_c_dot s0 x0 y0 hdg0 cs ce hl, hh, ?_, ?_, ?_, ?_⟩
  · rw [hh s0]
    simp
  · intro s
    have hfun : (fun u : ℝ =>
        ((Spiral.new s0 x0 y0 hdg0 length cs ce).heading odrSpiral u).getD 0)
        = fun u : ℝ => hdg0 + cs * (u - s0) + (ce - cs) / length * (u - s0) ^ 2 / 2 := by
      funext u
      rw [hh u]
      rfl
    rw [hfun]
    exact hasDerivAt_quadratic_heading hdg0 cs ((ce - cs) / length) s0 s
  · ring
  · field_simp

/-- C8, at the descriptor `s0 = 0, origin = (0, 0), hdg0 = 0, length = 10, curv_start = 0,
curv_end = 1/10` with the exact evaluator: the heading at `s0` is `hdg0`. -/
theorem heading_quadratic_curvature_linear_witness :
    (Spiral.new (0 : ℝ) 0 0 0 10 0 (1 / 10)).heading odrSpiralExact 0 = some 0 :=
  (heading_quadratic_curvature_linear odrSpiralExact 0 0 0 0 10 0 (1 / 10)
    (by norm_num) (by norm_num) (fun _ _ => rfl)).2.2.1

end Heading

/-! ## `get_bbox`: candidates and the reduction loop -/

section BBox
variable {F : Type} [LinearOrderedField F] [FloorRing F]

lemma mem_n_range (v : F) (n : Int) :
    n ∈ n_range v ↔ Int.floor (-|v|) - 1 ≤ n ∧ n < Int.ceil |v| + 1 := by
  simp only [n_range, List.mem_map, List.mem_range]
  constructor
  · rintro ⟨i, hi, rfl⟩
    omega
  · rintro ⟨h1, h2⟩
    refine ⟨(n - (Int.floor (-|v|) - 1)).toNat, ?_, ?_⟩ <;> omega

omit [FloorRing F] in
lemma mem_keep (g : Spiral F) (v : Option F) (s : F) :
    s ∈ g.keep v ↔ v = some s ∧ g.s0 ≤ s ∧ s ≤ g.s0 + g.length := by
  cases v with
  | none => simp [Spiral.keep]
  | some a =>
    simp only [Spiral.keep]
    by_cases h : a < g.s0 ∨ a > g.s0 + g.length
    · rw [if_pos h]
      simp only [List.not_mem_nil, Option.some.injEq, false_iff, not_and, not_le]
      rintro rfl h1
      rcases h with h | h
      · exact absurd h1 (not_le.mpr h)
      · exact h
    · rw [if_neg h]
      push_neg at h
      simp only [List.mem_singleton, Option.some.injEq]
      constructor
      · rintro rfl
        exact ⟨rfl, h.1, h.2⟩
      · rintro ⟨rfl, -, -⟩
        rfl

lemma mem_candidates (m : Libm F) (g : Spiral F) (is_x : Bool) {l : List F}
    (h : g.candidates m is_x = some l) (s : F) :
    s ∈ l ↔ ∃ v, g.n_end m is_x = some v ∧ ∃ f ∈ g.f_s_extremas m is_x, ∃ n ∈ n_range v,
      f n = some s ∧ g.s0 ≤ s ∧ s ≤ g.s0 + g.length := by
  unfold Spiral.candidates at h
  cases hv : g.n_end m is_x with
  | none => simp [hv] at h
  | some v =>
    simp only [hv, Option.bind_eq_bind, Option.some_bind, Option.pure_def, Option.some.injEq] at h
    subst h
    simp only [List.mem_flatMap, mem_keep, Option.some.injEq, exists_eq_left']

lemma candidates_new_isSome (m : Libm F) (hpi : m.pi ≠ 0) (s0 x0 y0 hdg0 : F) {length : F}
    (cs ce : F) (hlen : length ≠ 0) (is_x : Bool) :
    ∃ l, (Spiral.new s0 x0 y0 hdg0 length cs ce).candidates m is_x = some l := by
  have h2 : (2 : F) * m.pi ≠ 0 := mul_ne_zero two_ne_zero hpi
  cases is_x <;>
    simp [Spiral.candidates, Spiral.n_end, new_c_dot s0 x0 y0 hdg0 cs ce hlen, fdiv, h2]

lemma s_extremas_eq (m : Libm F) (g : Spiral F) {cx cy : List F}
    (hx : g.candidates m true = some cx) (hy : g.candidates m false = some cy) :
    g.s_extremas m = some (g.s0 :: (g.s0 + g.length) :: (cx ++ cy)) := by
  simp [Spiral.s_extremas, hx, hy]

omit [FloorRing F] in
lemma bbox_step_eq_some (m : Libm F) (odrSpiral : F → F → SpiralOut F) (g : Spiral F)
    {b b' : Box2D F} {s : F} (h : g.bbox_step m odrSpiral b s = some b') :
    ∃ p, g.get_point m odrSpiral s 0 = some p ∧
      b' = { min := { x := min b.min.x p.x, y := min b.min.y p.y },
             max := { x := max b.max.x p.x, y := max b.max.y p.y } } := by
  unfold Spiral.bbox_step at h
  cases hp : g.get_point m odrSpiral s 0 with
  | none => simp [hp] at h
  | some p =>
    refine ⟨p, rfl, ?_⟩
    simp only [hp, Option.bind_eq_bind, Option.some_bind, Option.pure_def, Option.some.injEq,
      std_min_eq_min, std_max_eq_max] at h
    exact h.symm

omit [FloorRing F] in
lemma foldlM_bbox_step_cons (m : Libm F) (odrSpiral : F → F → SpiralOut F) (g : Spiral F)
    (b : Box2D F) (s : F) (ss : List F) :
    (s :: ss).foldlM (g.bbox_step m odrSpiral) b
      = (g.bbox_step m odrSpiral b s).bind (fun b1 => ss.foldlM (g.bbox_step m odrSpiral) b1) := by
  rw [List.foldlM_cons]
  rfl

omit [FloorRing F] in
/-- The box grows along the reduction loop and contains every evaluated point. -/
lemma foldlM_bbox_bounds (m : Libm F) (odrSpiral : F → F → SpiralOut F) (g : Spiral F) :
    ∀ (ss : List F) (b b' : Box2D F), ss.foldlM (g.bbox_step m odrSpiral) b = some b' →
      (b'.min.x ≤ b.min.x ∧ b'.min.y ≤ b.min.y ∧ b.max.x ≤ b'.max.x ∧ b.max.y ≤ b'.max.y) ∧
      ∀ s ∈ ss, ∃ p, g.get_point m odrSpiral s 0 = some p ∧
        b'.min.x ≤ p.x ∧ p.x ≤ b'.max.x ∧ b'.min.y ≤ p.y ∧ p.y ≤ b'.max.y := by
  intro ss
  induction ss with
  | nil =>
    intro b b' h
    simp only [List.foldlM_nil, Option.pure_def, Option.some.injEq] at h
    subst h
    exact ⟨⟨le_refl _, le_refl _, le_refl _, le_refl _⟩, fun s hs => absurd hs (List.not_mem_nil s)⟩
  | cons a l ih =>
    intro b b' h
    rw [foldlM_bbox_step_cons] at h
    cases h1 : g.bbox_step m odrSpiral b a with
    | none => simp [h1] at h
    | some b1 =>
      rw [h1, Option.some_bind] at h
      obtain ⟨p, hp, hb1⟩ := bbox_step_eq_some m odrSpiral g h1
      obtain ⟨⟨i1, i2, i3, i4⟩, imem⟩ := ih b1 b' h
      have e1 : b1.min.x = min b.min.x p.x := by rw [hb1]
      have e2 : b1.min.y = min b.min.y p.y := by rw [hb1]
      have e3 : b1.max.x = max b.max.x p.x := by rw [hb1]
      have e4 : b1.max.y = max b.max.y p.y := by rw [hb1]
      rw [e1] at i1
      rw [e2] at i2
      rw [e3] at i3
      rw [e4] at i4
      refine ⟨⟨i1.trans (min_le_left _ _), i2.trans (min_le_left _ _),
        (le_max_left _ _).trans i3, (le_max_left _ _).trans i4⟩, ?_⟩
      intro s hs
      rcases List.mem_cons.mp hs with rfl | hs
      · exact ⟨p, hp, i1.trans (min_le_right _ _), (le_max_right _ _).trans i3,
          i2.trans (min_le_right _ _), (le_max_right _ _).trans i4⟩
      · exact imem s hs

omit [FloorRing F] in
/-- Each bound after the reduction loop is the bound before it or a coordinate of an
evaluated point. -/
lemma foldlM_bbox_attained (m : Libm F) (odrSpiral : F → F → SpiralOut F) (g : Spiral F) :
    ∀ (ss : List F) (b b' : Box2D F), ss.foldlM (g.bbox_step m odrSpiral) b = some b' →
      (b'.min.x = b.min.x ∨ ∃ s ∈ ss, ∃ p, g.get_point m odrSpiral s 0 = some p ∧
          b'.min.x = p.x) ∧
      (b'.min.y = b.min.y ∨ ∃ s ∈ ss, ∃ p, g.get_point m odrSpiral s 0 = some p ∧
          b'.min.y = p.y) ∧
      (b'.max.x = b.max.x ∨ ∃ s ∈ ss, ∃ p, g.get_point m odrSpiral s 0 = some p ∧
          b'.max.x = p.x) ∧
      (b'.max.y = b.max.y ∨ ∃ s ∈ ss, ∃ p, g.get_point m odrSpiral s 0 = some p ∧
          b'.max.y = p.y) := by
  intro ss
  induction ss with
  | nil =>
    intro b b' h
    simp only [List.foldlM_nil, Option.pure_def, Option.some.injEq] at h
    subst h
    exact ⟨Or.inl rfl, Or.inl rfl, Or.inl rfl, Or.inl rfl⟩
  | cons a l ih =>
    intro b b' h
    rw [foldlM_bbox_step_cons] at h
    cases h1 : g.bbox_step m odrSpiral b a with
    | none => simp [h1] at h
    | some b1 =>
      rw [h1, Option.some_bind] at h
      obtain ⟨p, hp, hb1⟩ := bbox_step_eq_some m odrSpiral g h1
      obtain ⟨j1, j2, j3, j4⟩ := ih b1 b' h
      have e1 : b1.min.x = min b.min.x p.x := by rw [hb1]
      have e2 : b1.min.y = min b.min.y p.y := by rw [hb1]
      have e3 : b1.max.x = max b.max.x p.x := by rw [hb1]
      have e4 : b1.max.y = max b.max.y p.y := by rw [hb1]
      have lift : ∀ {v : F}, (∃ s ∈ l, ∃ q, g.get_point m odrSpiral s 0 = some q ∧ v = q.x) →
          ∃ s ∈ a :: l, ∃ q, g.get_point m odrSpiral s 0 = some q ∧ v = q.x := by
        rintro v ⟨s, hs, q, hq, hv⟩
        exact ⟨s, List.mem_cons_of_mem a hs, q, hq, hv⟩
      have lifty : ∀ {v : F}, (∃ s ∈ l, ∃ q, g.get_point m odrSpiral s 0 = some q ∧ v = q.y) →
          ∃ s ∈ a :: l, ∃ q, g.get_point m odrSpiral s 0 = some q ∧ v = q.y := by
        rintro v ⟨s, hs, q, hq, hv⟩
        exact ⟨s, List.mem_cons_of_mem a hs, q, hq, hv⟩
      refine ⟨?_, ?_, ?_, ?_⟩
      · rcases j1 with j | j
        · rw [j, e1]
          rcases min_choice b.min.x p.x with c | c
          · exact Or.inl c
          · exact Or.inr ⟨a, List.mem_cons_self a l, p, hp, c⟩
        · exact Or.inr (lift j)
      · rcases j2 with j | j
        · rw [j, e2]
          rcases min_choice b.min.y p.y with c | c
          · exact Or.inl c
          · exact Or.inr ⟨a, List.mem_cons_self a l, p, hp, c⟩
        · exact Or.inr (lifty j)
      · rcases j3 with j | j
        · rw [j, e3]
          rcases max_choice b.max.x p.x with c | c
          · exact Or.inl c
          · exact Or.inr ⟨a, List.mem_cons_self a l, p, hp, c⟩
        · exact Or.inr (lift j)
      · rcases j4 with j | j
        · rw [j, e4]
          rcases max_choice b.max.y p.y with c | c
          · exact Or.inl c
          · exact Or.inr ⟨a, List.mem_cons_self a l, p, hp, c⟩
        · exact Or.inr (lifty j)

omit [FloorRing F] in
/-- The reduction loop ends with a box when every evaluated point is finite. -/
lemma foldlM_bbox_isSome (m : Libm F) (odrSpiral : F → F → SpiralOut F) (g : Spiral F) :
    ∀ (ss : List F) (b : Box2D F),
      (∀ s ∈ ss, ∃ p, g.get_point m odrSpiral s 0 = some p) →
      ∃ b', ss.foldlM (g.bbox_step m odrSpiral) b = some b' := by
  intro ss
  induction ss with
  | nil =>
    intro b _
    exact ⟨b, rfl⟩
  | cons a l ih =>
    intro b hall
    obtain ⟨p, hp⟩ := hall a (List.mem_cons_self a l)
    rw [foldlM_bbox_step_cons]
    have : g.bbox_step m odrSpiral b a
        = some { min := { x := std_min b.min.x p.x, y := std_min b.min.y p.y },
                 max := { x := std_max b.max.x p.x, y := std_max b.max.y p.y } } := by
      simp [Spiral.bbox_step, hp]
    rw [this, Option.some_bind]
    exact ih _ (fun s hs => hall s (List.mem_cons_of_mem a hs))

/-- Unfolding of `get_bbox` once the candidate lists are known. -/
lemma get_bbox_eq (m : Libm F) (odrSpiral : F → F → SpiralOut F) (g : Spiral F)
    {cx cy : List F} (hx : g.candidates m true = some cx) (hy : g.candidates m false = some cy) :
    g.get_bbox m odrSpiral
      = (g.get_point m odrSpiral g.s0 0).bind (fun p =>
          (g.s0 :: (g.s0 + g.length) :: (cx ++ cy)).foldlM (g.bbox_step m odrSpiral)
            { min := p, max := p }) := by
  simp [Spiral.get_bbox, s_extremas_eq m g hx hy]

/-- C3. For every descriptor with `length > 0`: every arclength in `s_extremas`, the
arclengths at which `get_bbox` evaluates the curve, lies in `[s0, s0 + length]` and is
`s0`, `s0 + length`, or a finite value of one of the four root formulas; and each of the
four bounds of the rectangle is the corresponding coordinate of `get_point(s, 0)` at one of
these arclengths.  The rectangle is finite exactly when `curv_start ≠ curv_end`. -/
theorem get_bbox_tight (m : Libm F) (odrSpiral : F → F → SpiralOut F)
    (s0 x0 y0 hdg0 length cs ce : F) (hpi : m.pi ≠ 0) (hlen : 0 < length) :
    ∃ ss : List F, (Spiral.new s0 x0 y0 hdg0 length cs ce).s_extremas m = some ss ∧
      (∀ s ∈ ss, s0 ≤ s ∧ s ≤ s0 + length ∧
        (s = s0 ∨ s = s0 + length ∨
          ∃ is_x : Bool, ∃ f ∈ (Spiral.new s0 x0 y0 hdg0 length cs ce).f_s_extremas m is_x,
            ∃ n : Int, f n = some s)) ∧
      (∃ s ∈ ss, ((Spiral.new s0 x0 y0 hdg0 length cs ce).get_bbox m odrSpiral).map
          (fun b => b.min.x)
        = ((Spiral.new s0 x0 y0 hdg0 length cs ce).get_point m odrSpiral s 0).map
          (fun p => p.x)) ∧
      (∃ s ∈ ss, ((Spiral.new s0 x0 y0 hdg0 length cs ce).get_bbox m odrSpiral).map
          (fun b => b.min.y)
        = ((Spiral.new s0 x0 y0 hdg0 length cs ce).get_point m odrSpiral s 0).map
          (fun p => p.y)) ∧
      (∃ s ∈ ss, ((Spiral.new s0 x0 y0 hdg0 length cs ce).get_bbox m odrSpiral).map
          (fun b => b.max.x)
        = ((Spiral.new s0 x0 y0 hdg0 length cs ce).get_point m odrSpiral s 0).map
          (fun p => p.x)) ∧
      (∃ s ∈ ss, ((Spiral.new s0 x0 y0 hdg0 length cs ce).get_bbox m odrSpiral).map
          (fun b => b.max.y)
        = ((Spiral.new s0 x0 y0 hdg0 length cs ce).get_point m odrSpiral s 0).map
          (fun p => p.y)) ∧
      (((Spiral.new s0 x0 y0 hdg0 length cs ce).get_bbox m odrSpiral).isSome = true
        ↔ cs ≠ ce) := by
  have hl : length ≠ 0 := hlen.ne'
  obtain ⟨cx, hx⟩ := candidates_new_isSome m hpi s0 x0 y0 hdg0 cs ce hl true
  obtain ⟨cy, hy⟩ := candidates_new_isSome m hpi s0 x0 y0 hdg0 cs ce hl false
  generalize hg : Spiral.new s0 x0 y0 hdg0 length cs ce = g at hx hy ⊢
  have hs0 : g.s0 = s0 := by rw [← hg]; rfl
  have hlen' : g.length = length := by rw [← hg]; rfl
  have hss := s_extremas_eq m g hx hy
  rw [hs0, hlen'] at hss
  have hmem0 : s0 ∈ s0 :: (s0 + length) :: (cx ++ cy) := List.mem_cons_self _ _
  refine ⟨s0 :: (s0 + length) :: (cx ++ cy), hss, ?_, ?_⟩
  · intro s hs
    rcases List.mem_cons.mp hs with rfl | hs
    · exact ⟨le_refl _, le_add_of_nonneg_right hlen.le, Or.inl rfl⟩
    rcases List.mem_cons.mp hs with rfl | hs
    · exact ⟨le_add_of_nonneg_right hlen.le, le_refl _, Or.inr (Or.inl rfl)⟩
    rcases List.mem_append.mp hs with hs | hs
    · obtain ⟨v, -, f, hf, n, -, hfn, h1, h2⟩ := (mem_candidates m g true hx s).mp hs
      rw [hs0] at h1 h2
      rw [hlen'] at h2
      exact ⟨h1, h2, Or.inr (Or.inr ⟨true, f, hf, n, hfn⟩)⟩
    · obtain ⟨v, -, f, hf, n, -, hfn, h1, h2⟩ := (mem_candidates m g false hy s).mp hs
      rw [hs0] at h1 h2
      rw [hlen'] at h2
      exact ⟨h1, h2, Or.inr (Or.inr ⟨false, f, hf, n, hfn⟩)⟩
  · have hbox := get_bbox_eq m odrSpiral g hx hy
    rw [hs0, hlen'] at hbox
    by_cases hne : cs = ce
    · have hnone : ∀ s t, g.get_point m odrSpiral s t = none := by
        intro s t
        rw [← hg, hne]
        exact get_point_degenerate m odrSpiral s0 x0 y0 hdg0 length ce s t
      have hb : g.get_bbox m odrSpiral = none := by
        rw [hbox, hnone]
        rfl
      rw [hb]
      refine ⟨⟨s0, hmem0, ?_⟩, ⟨s0, hmem0, ?_⟩, ⟨s0, hmem0, ?_⟩, ⟨s0, hmem0, ?_⟩, ?_⟩
      · rw [hnone]; rfl
      · rw [hnone]; rfl
      · rw [hnone]; rfl
      · rw [hnone]; rfl
      · simp [hne]
    · have hsome : ∀ s, ∃ p, g.get_point m odrSpiral s 0 = some p := by
        intro s
        rw [← hg]
        exact ⟨_, get_point_new m odrSpiral s0 x0 y0 hdg0 hl hne s 0⟩
      obtain ⟨p0, hp0⟩ := hsome s0
      obtain ⟨b, hb⟩ := foldlM_bbox_isSome m odrSpiral g (s0 :: (s0 + length) :: (cx ++ cy))
        { min := p0, max := p0 } (fun s _ => hsome s)
      have hbb : g.get_bbox m odrSpiral = some b := by
        rw [hbox, hp0, Option.some_bind, hb]
      obtain ⟨a1, a2, a3, a4⟩ := foldlM_bbox_attained m odrSpiral g _ _ _ hb
      rw [hbb]
      refine ⟨?_, ?_, ?_, ?_, ?_⟩
      · rcases a1 with a | ⟨s, hs, p, hp, a⟩
        · exact ⟨s0, hmem0, by rw [hp0]; simp [a]⟩
        · exact ⟨s, hs, by rw [hp]; simp [a]⟩
      · rcases a2 with a | ⟨s, hs, p, hp, a⟩
        · exact ⟨s0, hmem0, by rw [hp0]; simp [a]⟩
        · exact ⟨s, hs, by rw [hp]; simp [a]⟩
      · rcases a3 with a | ⟨s, hs, p, hp, a⟩
        · exact ⟨s0, hmem0, by rw [hp0]; simp [a]⟩
        · exact ⟨s, hs, by rw [hp]; simp [a]⟩
      · rcases a4 with a | ⟨s, hs, p, hp, a⟩
        · exact ⟨s0, hmem0, by rw [hp0]; simp [a]⟩
        · exact ⟨s, hs, by rw [hp]; simp [a]⟩
      · simp [hne]

/-- C3, at the descriptor `s0 = 0, origin = (0, 0), hdg0 = 0, length = 10, curv_start = 0,
curv_end = 1/10` with the real `<cmath>` and the exact evaluator. -/
theorem get_bbox_tight_witness :
    ∃ ss : List ℝ, (Spiral.new (0 : ℝ) 0 0 0 10 0 (1 / 10)).s_extremas realLibm = some ss ∧
      ∀ s ∈ ss, (0 : ℝ) ≤ s ∧ s ≤ 0 + 10 := by
  obtain ⟨ss, h1, h2, -⟩ := get_bbox_tight realLibm odrSpiralExact 0 0 0 0 10 0 (1 / 10)
    Real.pi_ne_zero (by norm_num)
  exact ⟨ss, h1, fun s hs => ⟨(h2 s hs).1, (h2 s hs).2.1⟩⟩

end BBox

/-! ## The centerline with the exact evaluator -/

section Centerline
open intervalIntegral

lemma continuous_cos_quadratic (h k : ℝ) :
    Continuous (fun v : ℝ => Real.cos (h + k * v ^ 2 / 2)) := by fun_prop

lemma continuous_sin_quadratic (h k : ℝ) :
    Continuous (fun v : ℝ => Real.sin (h + k * v ^ 2 / 2)) := by fun_prop

lemma continuous_cos_spiral (k : ℝ) : Continuous (fun v : ℝ => Real.cos (k * v ^ 2 / 2)) := by
  fun_prop

lemma continuous_sin_spiral (k : ℝ) : Continuous (fun v : ℝ => Real.sin (k * v ^ 2 / 2)) := by
  fun_prop

/-- Rotating the difference of two canonical-spiral positions by `h` gives the integral of the
rotated tangent: the `x` component. -/
lemma rotated_difference_x (k h a b : ℝ) :
    Real.cos h * ((∫ v in (0 : ℝ)..b, Real.cos (k * v ^ 2 / 2))
        - ∫ v in (0 : ℝ)..a, Real.cos (k * v ^ 2 / 2))
      - Real.sin h * ((∫ v in (0 : ℝ)..b, Real.sin (k * v ^ 2 / 2))
        - ∫ v in (0 : ℝ)..a, Real.sin (k * v ^ 2 / 2))
      = ∫ v in a..b, Real.cos (h + k * v ^ 2 / 2) := by
  have ic : ∀ p q : ℝ, IntervalIntegrable (fun v : ℝ => Real.cos (k * v ^ 2 / 2))
      MeasureTheory.volume p q := fun p q => (continuous_cos_spiral k).intervalIntegrable p q
  have is : ∀ p q : ℝ, IntervalIntegrable (fun v : ℝ => Real.sin (k * v ^ 2 / 2))
      MeasureTheory.volume p q := fun p q => (continuous_sin_spiral k).intervalIntegrable p q
  rw [integral_interval_sub_left (ic 0 b) (ic 0 a), integral_interval_sub_left (is 0 b) (is 0 a)]
  simp only [Real.cos_add]
  rw [integral_sub ((ic a b).const_mul _) ((is a b).const_mul _),
    integral_const_mul, integral_const_mul]

/-- The `y` component of the rotated difference. -/
lemma rotated_difference_y (k h a b : ℝ) :
    Real.sin h * ((∫ v in (0 : ℝ)..b, Real.cos (k * v ^ 2 / 2))
        - ∫ v in (0 : ℝ)..a, Real.cos (k * v ^ 2 / 2))
      + Real.cos h * ((∫ v in (0 : ℝ)..b, Real.sin (k * v ^ 2 / 2))
        - ∫ v in (0 : ℝ)..a, Real.sin (k * v ^ 2 / 2))
      = ∫ v in a..b, Real.sin (h + k * v ^ 2 / 2) := by
  have ic : ∀ p q : ℝ, IntervalIntegrable (fun v : ℝ => Real.cos (k * v ^ 2 / 2))
      MeasureTheory.volume p q := fun p q => (continuous_cos_spiral k).intervalIntegrable p q
  have is : ∀ p q : ℝ, IntervalIntegrable (fun v : ℝ => Real.sin (k * v ^ 2 / 2))
      MeasureTheory.volume p q := fun p q => (continuous_sin_spiral k).intervalIntegrable p q
  rw [integral_interval_sub_left (ic 0 b) (ic 0 a), integral_interval_sub_left (is 0 b) (is 0 a)]
  simp only [Real.sin_add]
  rw [integral_add ((ic a b).const_mul _) ((is a b).const_mul _),
    integral_const_mul, integral_const_mul]

/-- Heading of the segment as a function of the road arclength `u`. -/
lemma shift_heading (hdg0 cs c s0 u : ℝ) (hc : c ≠ 0) :
    hdg0 - c * (cs / c) ^ 2 / 2 + c * (u + (cs / c - s0)) ^ 2 / 2
      = hdg0 + cs * (u - s0) + c * (u - s0) ^ 2 / 2 := by
  field_simp
  ring

/-- With the exact evaluator, the centerline point at `s` is the origin plus the integral
of the unit tangent `(cos a(u), sin a(u))` over `[s0, s]`, where
`a(u) = hdg0 + curv_start (u - s0) + c_dot (u - s0)^2 / 2`. -/
lemma get_point_exact (s0 x0 y0 hdg0 : ℝ) {length cs ce : ℝ} (hlen : length ≠ 0)
    (hne : cs ≠ ce) (s : ℝ) :
    (Spiral.new s0 x0 y0 hdg0 length cs ce).get_point realLibm odrSpiralExact s 0
      = some
        { x := x0 + ∫ u in s0..s,
            Real.cos (hdg0 + cs * (u - s0) + (ce - cs) / length * (u - s0) ^ 2 / 2),
          y := y0 + ∫ u in s0..s,
            Real.sin (hdg0 + cs * (u - s0) + (ce - cs) / length * (u - s0) ^ 2 / 2) } := by
  have hc : (ce - cs) / length ≠ 0 := rate_ne_zero hlen hne
  rw [get_point_new realLibm odrSpiralExact s0 x0 y0 hdg0 hlen hne s 0]
  generalize (ce - cs) / length = c at hc
  have hx : (∫ u in s0..s, Real.cos (hdg0 + cs * (u - s0) + c * (u - s0) ^ 2 / 2))
      = ∫ v in (cs / c)..(s - s0 + cs / c),
          Real.cos ((hdg0 - c * (cs / c) ^ 2 / 2) + c * v ^ 2 / 2) := by
    have := integral_comp_add_right
      (fun v : ℝ => Real.cos ((hdg0 - c * (cs / c) ^ 2 / 2) + c * v ^ 2 / 2))
      (cs / c - s0) (a := s0) (b := s)
    simp only [shift_heading hdg0 cs c s0 _ hc] at this
    rw [this]
    congr 1 <;> ring
  have hy : (∫ u in s0..s, Real.sin (hdg0 + cs * (u - s0) + c * (u - s0) ^ 2 / 2))
      = ∫ v in (cs / c)..(s - s0 + cs / c),
          Real.sin ((hdg0 - c * (cs / c) ^ 2 / 2) + c * v ^ 2 / 2) := by
    have := integral_comp_add_right
      (fun v : ℝ => Real.sin ((hdg0 - c * (cs / c) ^ 2 / 2) + c * v ^ 2 / 2))
      (cs / c - s0) (a := s0) (b := s)
    simp only [shift_heading hdg0 cs c s0 _ hc] at this
    rw [this]
    congr 1 <;> ring
  rw [hx, hy, ← rotated_difference_x, ← rotated_difference_y]
  simp only [realLibm, odrSpiralExact, zero_mul, add_zero]
  congr 2 <;> ring

end Centerline

/-! ## The root formulas and the loop range -/

section Roots
variable {F : Type} [LinearOrderedField F]

lemma n_range_of_abs_le_one [FloorRing F] (v : F) (h0 : 0 < |v|) (h1 : |v| ≤ 1) :
    n_range v = [-2, -1, 0, 1] := by
  have hf : Int.floor (-|v|) = -1 := by
    rw [Int.floor_eq_iff]
    constructor
    · push_cast
      linarith
    · push_cast
      linarith
  have hc : Int.ceil |v| = 1 := by
    rw [Int.ceil_eq_iff]
    constructor
    · push_cast
      linarith
    · push_cast
      linarith
  simp only [n_range, hf, hc]
  rfl

lemma f_s_x_extrema_1_new (m : Libm F) (s0 x0 y0 hdg0 : F) {length cs ce : F}
    (hlen : length ≠ 0) (hne : cs ≠ ce) (n : Int) :
    (Spiral.new s0 x0 y0 hdg0 length cs ce).f_s_x_extrema_1 m n
      = (fsqrt m (cs * cs + (ce - cs) / length * (-2 * hdg0 - 2 * m.pi * n + m.pi))).map
          (fun r => (r - cs) / ((ce - cs) / length) + s0) := by
  have hc := rate_ne_zero hlen hne
  simp only [Spiral.f_s_x_extrema_1, new_c_dot s0 x0 y0 hdg0 cs ce hlen, Option.bind_eq_bind,
    Option.some_bind, fdiv, if_neg hc, Option.pure_def, new_s0, new_hdg0, new_curv_start]
  cases fsqrt m (cs * cs + (ce - cs) / length * (-2 * hdg0 - 2 * m.pi * n + m.pi)) <;> rfl

lemma f_s_x_extrema_2_new (m : Libm F) (s0 x0 y0 hdg0 : F) {length cs ce : F}
    (hlen : length ≠ 0) (hne : cs ≠ ce) (n : Int) :
    (Spiral.new s0 x0 y0 hdg0 length cs ce).f_s_x_extrema_2 m n
      = (fsqrt m (cs * cs + (ce - cs) / length * (-2 * hdg0 - 2 * m.pi * n + m.pi))).map
          (fun r => -(r + cs) / ((ce - cs) / length) + s0) := by
  have hc := rate_ne_zero hlen hne
  simp only [Spiral.f_s_x_extrema_2, new_c_dot s0 x0 y0 hdg0 cs ce hlen, Option.bind_eq_bind,
    Option.some_bind, fdiv, if_neg hc, Option.pure_def, new_s0, new_hdg0, new_curv_start]
  cases fsqrt m (cs * cs + (ce - cs) / length * (-2 * hdg0 - 2 * m.pi * n + m.pi)) <;> rfl

lemma f_s_y_extrema_1_new (m : Libm F) (s0 x0 y0 hdg0 : F) {length cs ce : F}
    (hlen : length ≠ 0) (hne : cs ≠ ce) (n : Int) :
    (Spiral.new s0 x0 y0 hdg0 length cs ce).f_s_y_extrema_1 m n
      = (fsqrt m (cs * cs + 2 * ((ce - cs) / length) * (-hdg0 - m.pi * n))).map
          (fun r => -(r + cs) / ((ce - cs) / length) + s0) := by
  have hc := rate_ne_zero hlen hne
  simp only [Spiral.f_s_y_extrema_1, new_c_dot s0 x0 y0 hdg0 cs ce hlen, Option.bind_eq_bind,
    Option.some_bind, fdiv, if_neg hc, Option.pure_def, new_s0, new_hdg0, new_curv_start]
  cases fsqrt m (cs * cs + 2 * ((ce - cs) / length) * (-hdg0 - m.pi * n)) <;> rfl

lemma f_s_y_extrema_2_new (m : Libm F) (s0 x0 y0 hdg0 : F) {length cs ce : F}
    (hlen : length ≠ 0) (hne : cs ≠ ce) (n : Int) :
    (Spiral.new s0 x0 y0 hdg0 length cs ce).f_s_y_extrema_2 m n
      = (fsqrt m (cs * cs + 2 * ((ce - cs) / length) * (-hdg0 - m.pi * n))).map
          (fun r => (r - cs) / ((ce - cs) / length) + s0) := by
  have hc := rate_ne_zero hlen hne
  simp only [Spiral.f_s_y_extrema_2, new_c_dot s0 x0 y0 hdg0 cs ce hlen, Option.bind_eq_bind,
    Option.some_bind, fdiv, if_neg hc, Option.pure_def, new_s0, new_hdg0, new_curv_start]
  cases fsqrt m (cs * cs + 2 * ((ce - cs) / length) * (-hdg0 - m.pi * n)) <;> rfl

lemma n_end_new (m : Libm F) (hpi : m.pi ≠ 0) (s0 x0 y0 hdg0 : F) {length : F} (cs ce : F)
    (hlen : length ≠ 0) (is_x : Bool) :
    (Spiral.new s0 x0 y0 hdg0 length cs ce).n_end m is_x
      = some (if is_x then
          (2 * cs * length + (ce - cs) / length * length * length - m.pi) / (2 * m.pi)
        else (2 * cs * length + (ce - cs) / length * length * length) / (2 * m.pi)) := by
  have h2 : (2 : F) * m.pi ≠ 0 := mul_ne_zero two_ne_zero hpi
  cases is_x <;> simp [Spiral.n_end, Spiral.new, fdiv, hlen, h2, hpi]

lemma fsqrt_of_neg (m : Libm F) {a : F} (h : a < 0) : fsqrt m a = none := by
  simp [fsqrt, h]

lemma fsqrt_of_nonneg (m : Libm F) {a : F} (h : 0 ≤ a) : fsqrt m a = some (m.sqrt a) := by
  simp [fsqrt, not_lt.mpr h]

lemma keep_none (g : Spiral F) : g.keep none = [] := rfl

lemma keep_of_lt (g : Spiral F) {s : F} (h : s < g.s0) : g.keep (some s) = [] := by
  simp [Spiral.keep, h]

lemma keep_of_gt (g : Spiral F) {s : F} (h : g.s0 + g.length < s) : g.keep (some s) = [] := by
  simp [Spiral.keep, h]

lemma keep_of_mem (g : Spiral F) {s : F} (h1 : g.s0 ≤ s) (h2 : s ≤ g.s0 + g.length) :
    g.keep (some s) = [s] := by
  simp [Spiral.keep, not_lt.mpr h1, not_lt.mpr h2]

end Roots

/-! ## The scenario `length = 10`, `curv_end = 1/10` -/

section Scenario

lemma scenario_disc_x (n : Int) :
    (0 : ℝ) * 0 + (1 / 10 - 0) / 10 * (-2 * 0 - 2 * Real.pi * n + Real.pi)
      = Real.pi / 100 * (1 - 2 * n) := by ring

lemma scenario_disc_y (n : Int) :
    (0 : ℝ) * 0 + 2 * ((1 / 10 - 0) / 10) * (-0 - Real.pi * n) = Real.pi / 50 * (-n) := by ring

/-- A discriminant of the scenario that is not negative and belongs to `n ≤ -1` (for `y`) or
to any `n` (for `x`) has a square root above `1/10`. -/
lemma scenario_sqrt_gt {d : ℝ} (hd : 1 / 100 < d) : 1 / 10 < Real.sqrt d := by
  rw [Real.lt_sqrt (by norm_num)]
  norm_num
  linarith

lemma scenario_keep_x1 (n : Int) :
    (Spiral.new (0 : ℝ) 0 0 0 10 0 (1 / 10)).keep
      ((Spiral.new (0 : ℝ) 0 0 0 10 0 (1 / 10)).f_s_x_extrema_1 realLibm n) = [] := by
  rw [f_s_x_extrema_1_new realLibm 0 0 0 0 (by norm_num) (by norm_num) n]
  simp only [realLibm, scenario_disc_x]
  by_cases hD : Real.pi / 100 * (1 - 2 * (n : ℝ)) < 0
  · rw [fsqrt_of_neg _ hD]
    rfl
  · rw [fsqrt_of_nonneg _ (not_lt.mp hD)]
    have hn : n ≤ 0 := by
      by_contra h
      push_neg at h
      have h1 : (1 : ℝ) ≤ n := by exact_mod_cast h
      exact hD (by nlinarith [Real.pi_pos])
    have h0 : (n : ℝ) ≤ 0 := by exact_mod_cast hn
    have hr := scenario_sqrt_gt (d := Real.pi / 100 * (1 - 2 * (n : ℝ)))
      (by nlinarith [Real.pi_gt_three])
    apply keep_of_gt
    simp only [Option.map_some', new_s0, new_length]
    have : (Real.sqrt (Real.pi / 100 * (1 - 2 * (n : ℝ))) - 0) / ((1 / 10 - 0) / 10) + 0
        = 100 * Real.sqrt (Real.pi / 100 * (1 - 2 * (n : ℝ))) := by ring
    rw [this]
    linarith

lemma scenario_keep_x2 (n : Int) :
    (Spiral.new (0 : ℝ) 0 0 0 10 0 (1 / 10)).keep
      ((Spiral.new (0 : ℝ) 0 0 0 10 0 (1 / 10)).f_s_x_extrema_2 realLibm n) = [] := by
  rw [f_s_x_extrema_2_new realLibm 0 0 0 0 (by norm_num) (by norm_num) n]
  simp only [realLibm, scenario_disc_x]
  by_cases hD : Real.pi / 100 * (1 - 2 * (n : ℝ)) < 0
  · rw [fsqrt_of_neg _ hD]
    rfl
  · rw [fsqrt_of_nonneg _ (not_lt.mp hD)]
    have hn : n ≤ 0 := by
      by_contra h
      push_neg at h
      have h1 : (1 : ℝ) ≤ n := by exact_mod_cast h
      exact hD (by nlinarith [Real.pi_pos])
    have h0 : (n : ℝ) ≤ 0 := by exact_mod_cast hn
    have hr := scenario_sqrt_gt (d := Real.pi / 100 * (1 - 2 * (n : ℝ)))
      (by nlinarith [Real.pi_gt_three])
    apply keep_of_lt
    simp only [Option.map_some', new_s0]
    have : -(Real.sqrt (Real.pi / 100 * (1 - 2 * (n : ℝ))) + 0) / ((1 / 10 - 0) / 10) + 0
        = -(100 * Real.sqrt (Real.pi / 100 * (1 - 2 * (n : ℝ)))) := by ring
    rw [this]
    linarith

lemma scenario_keep_y1 (n : Int) :
    (Spiral.new (0 : ℝ) 0 0 0 10 0 (1 / 10)).keep
      ((Spiral.new (0 : ℝ) 0 0 0 10 0 (1 / 10)).f_s_y_extrema_1 realLibm n)
      = if n = 0 then [0] else [] := by
  rw [f_s_y_extrema_1_new realLibm 0 0 0 0 (by norm_num) (by norm_num) n]
  simp only [realLibm, scenario_disc_y]
  by_cases hD : Real.pi / 50 * (-(n : ℝ)) < 0
  · rw [fsqrt_of_neg _ hD]
    have hn : n ≠ 0 := by
      rintro rfl
      simp at hD
    rw [if_neg hn]
    rfl
  · rw [fsqrt_of_nonneg _ (not_lt.mp hD)]
    have hn : n ≤ 0 := by
      by_contra h
      push_neg at h
      have h1 : (1 : ℝ) ≤ n := by exact_mod_cast h
      exact hD (by nlinarith [Real.pi_pos])
    by_cases hz : n = 0
    · subst hz
      rw [if_pos rfl]
      simp only [Int.cast_zero, neg_zero, mul_zero, Real.sqrt_zero, Option.map_some']
      have : -((0 : ℝ) + 0) / ((1 / 10 - 0) / 10) + 0 = 0 := by norm_num
      rw [this]
      exact keep_of_mem _ (by simp) (by simp)
    · rw [if_neg hz]
      have h1 : n ≤ -1 := by omega
      have h0 : (n : ℝ) ≤ -1 := by exact_mod_cast h1
      have hr := scenario_sqrt_gt (d := Real.pi / 50 * (-(n : ℝ)))
        (by nlinarith [Real.pi_gt_three])
      apply keep_of_lt
      simp only [Option.map_some', new_s0]
      have : -(Real.sqrt (Real.pi / 50 * (-(n : ℝ))) + 0) / ((1 / 10 - 0) / 10) + 0
          = -(100 * Real.sqrt (Real.pi / 50 * (-(n : ℝ)))) := by ring
      rw [this]
      linarith

lemma scenario_keep_y2 (n : Int) :
    (Spiral.new (0 : ℝ) 0 0 0 10 0 (1 / 10)).keep
      ((Spiral.new (0 : ℝ) 0 0 0 10 0 (1 / 10)).f_s_y_extrema_2 realLibm n)
      = if n = 0 then [0] else [] := by
  rw [f_s_y_extrema_2_new realLibm 0 0 0 0 (by norm_num) (by norm_num) n]
  simp only [realLibm, scenario_disc_y]
  by_cases hD : Real.pi / 50 * (-(n : ℝ)) < 0
  · rw [fsqrt_of_neg _ hD]
    have hn : n ≠ 0 := by
      rintro rfl
      simp at hD
    rw [if_neg hn]
    rfl
  · rw [fsqrt_of_nonneg _ (not_lt.mp hD)]
    have hn : n ≤ 0 := by
      by_contra h
      push_neg at h
      have h1 : (1 : ℝ) ≤ n := by exact_mod_cast h
      exact hD (by nlinarith [Real.pi_pos])
    by_cases hz : n = 0
    · subst hz
      rw [if_pos rfl]
      simp only [Int.cast_zero, neg_zero, mul_zero, Real.sqrt_zero, Option.map_some']
      have : ((0 : ℝ) - 0) / ((1 / 10 - 0) / 10) + 0 = 0 := by norm_num
      rw [this]
      exact keep_of_mem _ (by simp) (by simp)
    · rw [if_neg hz]
      have h1 : n ≤ -1 := by omega
      have h0 : (n : ℝ) ≤ -1 := by exact_mod_cast h1
      have hr := scenario_sqrt_gt (d := Real.pi / 50 * (-(n : ℝ)))
        (by nlinarith [Real.pi_gt_three])
      apply keep_of_gt
      simp only [Option.map_some', new_s0, new_length]
      have : (Real.sqrt (Real.pi / 50 * (-(n : ℝ))) - 0) / ((1 / 10 - 0) / 10) + 0
          = 100 * Real.sqrt (Real.pi / 50 * (-(n : ℝ))) := by ring
      rw [this]
      linarith

lemma scenario_n_range (is_x : Bool) :
    ∃ v : ℝ, (Spiral.new (0 : ℝ) 0 0 0 10 0 (1 / 10)).n_end realLibm is_x = some v ∧
      n_range v = [-2, -1, 0, 1] := by
  have hpi := Real.pi_gt_three
  have hpos := Real.pi_pos
  refine ⟨_, n_end_new realLibm Real.pi_ne_zero 0 0 0 0 0 (1 / 10) (by norm_num) is_x, ?_⟩
  apply n_range_of_abs_le_one
  · apply abs_pos.mpr
    cases is_x
    · simp only [realLibm, Bool.false_eq_true, if_false]
      have : (2 * 0 * 10 + (1 / 10 - 0) / 10 * 10 * 10 : ℝ) = 1 := by norm_num
      rw [this]
      positivity
    · simp only [realLibm, if_true]
      have : (2 * 0 * 10 + (1 / 10 - 0) / 10 * 10 * 10 - Real.pi : ℝ) = 1 - Real.pi := by
        norm_num
      rw [this]
      exact div_ne_zero (by linarith) (by positivity)
  · rw [abs_le]
    cases is_x
    · simp only [realLibm, Bool.false_eq_true, if_false]
      have : (2 * 0 * 10 + (1 / 10 - 0) / 10 * 10 * 10 : ℝ) = 1 := by norm_num
      rw [this]
      constructor
      · have : (0 : ℝ) ≤ 1 / (2 * Real.pi) := by positivity
        linarith
      · rw [div_le_one (by positivity)]
        linarith
    · simp only [realLibm, if_true]
      have : (2 * 0 * 10 + (1 / 10 - 0) / 10 * 10 * 10 - Real.pi : ℝ) = 1 - Real.pi := by
        norm_num
      rw [this]
      constructor
      · rw [le_div_iff₀ (by positivity)]
        linarith
      · rw [div_le_one (by positivity)]
        linarith

lemma scenario_candidates_x :
    (Spiral.new (0 : ℝ) 0 0 0 10 0 (1 / 10)).candidates realLibm true = some [] := by
  obtain ⟨v, hv, hr⟩ := scenario_n_range true
  rw [Spiral.candidates, hv]
  simp only [Option.bind_eq_bind, Option.some_bind, Option.pure_def, hr, Spiral.f_s_extremas,
    if_true, List.flatMap_cons, List.flatMap_nil, scenario_keep_x1, scenario_keep_x2,
    List.append_nil]

lemma scenario_candidates_y :
    (Spiral.new (0 : ℝ) 0 0 0 10 0 (1 / 10)).candidates realLibm false = some [0, 0] := by
  obtain ⟨v, hv, hr⟩ := scenario_n_range false
  rw [Spiral.candidates, hv]
  simp only [Option.bind_eq_bind, Option.some_bind, Option.pure_def, hr, Spiral.f_s_extremas,
    Bool.false_eq_true, if_false, List.flatMap_cons, List.flatMap_nil, scenario_keep_y1,
    scenario_keep_y2, List.append_nil]
  rfl

lemma eq_min_of_attained {v a b : ℝ} (ha : v ≤ a) (hb : v ≤ b) (h : v = a ∨ v = b) :
    v = min a b := by
  rcases h with h | h
  · rw [h, min_eq_left (h ▸ hb)]
  · rw [h, min_eq_right (h ▸ ha)]

lemma eq_max_of_attained {v a b : ℝ} (ha : a ≤ v) (hb : b ≤ v) (h : v = a ∨ v = b) :
    v = max a b := by
  rcases h with h | h
  · rw [h, max_eq_left (h ▸ hb)]
  · rw [h, max_eq_right (h ▸ ha)]

/-- The `y` coordinate of the end point of the scenario is not negative: the heading stays
in `[0, 1/2]`, where the sine is not negative. -/
lemma scenario_end_y_nonneg :
    0 ≤ ∫ u in (0 : ℝ)..10,
      Real.sin (0 + 0 * (u - 0) + (1 / 10 - 0) / 10 * (u - 0) ^ 2 / 2) := by
  apply intervalIntegral.integral_nonneg (by norm_num)
  intro u hu
  obtain ⟨h0, h1⟩ := hu
  have e : 0 + 0 * (u - 0) + (1 / 10 - 0) / 10 * (u - 0) ^ 2 / 2 = u ^ 2 / 200 := by ring
  rw [e]
  apply Real.sin_nonneg_of_nonneg_of_le_pi
  · positivity
  · have := Real.pi_gt_three
    nlinarith

/-- C10. For the descriptor `s0 = 0, origin = (0, 0), hdg0 = 0, length = 10, curv_start = 0,
curv_end = 1/10` (so `c_dot = 1/100`) with the exact evaluator: the heading stays in
`[0, 1/2]` over the segment, below `π/2`; no candidate of the `x` formulas survives the filter, the `y` formulas leave
`s = 0` twice, so `s_extremas = [0, 10, 0, 0]`; the rectangle is the hull of
`get_point(0, 0)` and `get_point(10, 0)`, with `min.x ≤ 0 ≤ max.x` and with `max.y` the
`y` coordinate of `get_point(10, 0)`. -/
theorem bbox_scenario :
    (Spiral.new (0 : ℝ) 0 0 0 10 0 (1 / 10)).c_dot = some (1 / 100) ∧
    (Spiral.new (0 : ℝ) 0 0 0 10 0 (1 / 10)).heading odrSpiralExact 10 = some (1 / 2) ∧
    (∀ s : ℝ, 0 ≤ s → s ≤ 10 →
      ∃ h, (Spiral.new (0 : ℝ) 0 0 0 10 0 (1 / 10)).heading odrSpiralExact s = some h ∧
        0 ≤ h ∧ h ≤ 1 / 2) ∧
    (1 / 2 : ℝ) < Real.pi / 2 ∧
    (Spiral.new (0 : ℝ) 0 0 0 10 0 (1 / 10)).candidates realLibm true = some [] ∧
    (Spiral.new (0 : ℝ) 0 0 0 10 0 (1 / 10)).candidates realLibm false = some [0, 0] ∧
    (Spiral.new (0 : ℝ) 0 0 0 10 0 (1 / 10)).s_extremas realLibm = some [0, 10, 0, 0] ∧
    ∃ b p0 p10,
      (Spiral.new (0 : ℝ) 0 0 0 10 0 (1 / 10)).get_bbox realLibm odrSpiralExact = some b ∧
      (Spiral.new (0 : ℝ) 0 0 0 10 0 (1 / 10)).get_point realLibm odrSpiralExact 0 0 = some p0 ∧
      (Spiral.new (0 : ℝ) 0 0 0 10 0 (1 / 10)).get_point realLibm odrSpiralExact 10 0
        = some p10 ∧
      b.min.x = min p0.x p10.x ∧ b.min.y = min p0.y p10.y ∧
      b.max.x = max p0.x p10.x ∧ b.max.y = max p0.y p10.y ∧
      b.min.x ≤ 0 ∧ 0 ≤ b.max.x ∧ b.max.y = p10.y := by
  have hl : (10 : ℝ) ≠ 0 := by norm_num
  have hne : (0 : ℝ) ≠ 1 / 10 := by norm_num
  have hss : (Spiral.new (0 : ℝ) 0 0 0 10 0 (1 / 10)).s_extremas realLibm
      = some [0, 10, 0, 0] := by
    rw [s_extremas_eq realLibm _ scenario_candidates_x scenario_candidates_y]
    simp
  have hp0 : (Spiral.new (0 : ℝ) 0 0 0 10 0 (1 / 10)).get_point realLibm odrSpiralExact 0 0
      = some { x := 0, y := 0 } := by
    rw [get_point_exact 0 0 0 0 hl hne 0]
    simp
  have hp10 := get_point_exact 0 0 0 0 hl hne 10
  have hall : ∀ s ∈ ([0, 10, 0, 0] : List ℝ),
      ∃ p, (Spiral.new (0 : ℝ) 0 0 0 10 0 (1 / 10)).get_point realLibm odrSpiralExact s 0
        = some p := fun s _ => ⟨_, get_point_exact 0 0 0 0 hl hne s⟩
  obtain ⟨b, hb⟩ := foldlM_bbox_isSome realLibm odrSpiralExact _ [0, 10, 0, 0]
    { min := { x := 0, y := 0 }, max := { x := 0, y := 0 } } hall
  have hbox : (Spiral.new (0 : ℝ) 0 0 0 10 0 (1 / 10)).get_bbox realLibm odrSpiralExact
      = some b := by
    rw [Spiral.get_bbox, hss]
    simp only [Option.bind_eq_bind, Option.some_bind, List.head?_cons, hp0]
    exact hb
  obtain ⟨⟨g1, g2, g3, g4⟩, hin⟩ := foldlM_bbox_bounds realLibm odrSpiralExact _ _ _ _ hb
  obtain ⟨a1, a2, a3, a4⟩ := foldlM_bbox_attained realLibm odrSpiralExact _ _ _ _ hb
  obtain ⟨q, hq, c1, c2, c3, c4⟩ := hin 10 (by simp)
  rw [hp10] at hq
  have hmem : ∀ s ∈ ([0, 10, 0, 0] : List ℝ), s = 0 ∨ s = 10 := by
    intro s hs
    simp only [List.mem_cons, List.mem_singleton, List.not_mem_nil, or_false] at hs
    rcases hs with h | h | h | h
    · exact Or.inl h
    · exact Or.inr h
    · exact Or.inl h
    · exact Or.inl h
  have pick : ∀ {v : ℝ} {f : Point2D ℝ → ℝ}, (v = f { x := 0, y := 0 } ∨
      ∃ s ∈ ([0, 10, 0, 0] : List ℝ), ∃ p,
        (Spiral.new (0 : ℝ) 0 0 0 10 0 (1 / 10)).get_point realLibm odrSpiralExact s 0 = some p ∧
          v = f p) → v = f { x := 0, y := 0 } ∨ v = f q := by
    intro v f h
    rcases h with h | ⟨s, hs, p, hp, hv⟩
    · exact Or.inl h
    · rcases hmem s hs with rfl | rfl
      · rw [hp0] at hp
        cases hp
        exact Or.inl hv
      · rw [hp10] at hp
        rw [hq] at hp
        cases hp
        exact Or.inr hv
  have hy : 0 ≤ q.y := by
    have := scenario_end_y_nonneg
    cases hq
    simpa using this
  have m1 : b.min.x = min 0 q.x := eq_min_of_attained g1 c1 (pick (f := fun p => p.x) a1)
  have m2 : b.min.y = min 0 q.y := eq_min_of_attained g2 c3 (pick (f := fun p => p.y) a2)
  have m3 : b.max.x = max 0 q.x := eq_max_of_attained g3 c2 (pick (f := fun p => p.x) a3)
  have m4 : b.max.y = max 0 q.y := eq_max_of_attained g4 c4 (pick (f := fun p => p.y) a4)
  refine ⟨?_, ?_, ?_, ?_, scenario_candidates_x, scenario_candidates_y, hss, b, _, q, hbox, hp0,
    hp10.trans hq, m1, m2, m3, m4, g1, g3, ?_⟩
  · rw [new_c_dot 0 0 0 0 0 (1 / 10) hl]
    norm_num
  · rw [heading_new odrSpiralExact 0 0 0 0 hl hne (fun _ _ => rfl) 10]
    norm_num
  · intro s h0 h1
    refine ⟨_, heading_new odrSpiralExact 0 0 0 0 hl hne (fun _ _ => rfl) s, ?_, ?_⟩
    · have : (0 : ℝ) + 0 * (s - 0) + (1 / 10 - 0) / 10 * (s - 0) ^ 2 / 2 = s ^ 2 / 200 := by ring
      rw [this]
      positivity
    · nlinarith
  · have := Real.pi_gt_three
    linarith
  · rw [m4, max_eq_right hy]

end Scenario

/-! ## A maximum of `y` that the loop range of `get_bbox` does not reach -/

section Overlooked
open intervalIntegral

lemma overlooked_heading (u : ℝ) :
    (9 : ℝ) + 0 * (u - 0) + (1 - 0) / 4 * (u - 0) ^ 2 / 2 = 9 + u ^ 2 / 8 := by ring

lemma sin_eq_neg_sin_sub_three_pi (a : ℝ) : Real.sin a = -Real.sin (a - 3 * Real.pi) := by
  have h := Real.sin_sub_pi (a - 2 * Real.pi)
  rw [Real.sin_sub_two_pi] at h
  have e : a - 2 * Real.pi - Real.pi = a - 3 * Real.pi := by ring
  rw [e] at h
  rw [h, neg_neg]

lemma overlooked_sin_pos {u : ℝ} (h0 : 0 < u) (h1 : u < 3 / 2) :
    0 < Real.sin (9 + u ^ 2 / 8) := by
  have hlo := Real.pi_gt_d2
  have hhi := Real.pi_lt_d2
  have hu : u ^ 2 < 9 / 4 := by nlinarith
  have hu0 : 0 ≤ u ^ 2 := sq_nonneg u
  have h := Real.sin_pos_of_pos_of_lt_pi (x := 9 + u ^ 2 / 8 - 2 * Real.pi)
    (by norm_num at hlo hhi ⊢; linarith) (by norm_num at hlo hhi ⊢; linarith)
  rwa [Real.sin_sub_two_pi] at h

lemma overlooked_sin_le_small {u : ℝ} (h0 : 3 / 2 ≤ u) (h1 : u ≤ 3) :
    Real.sin (9 + u ^ 2 / 8) ≤ 17 / 100 := by
  have hlo := Real.pi_gt_d2
  have hhi := Real.pi_lt_d2
  norm_num at hlo hhi
  have hu : 9 / 4 ≤ u ^ 2 := by nlinarith
  have hu' : u ^ 2 ≤ 9 := by nlinarith
  rw [sin_eq_neg_sin_sub_three_pi]
  rcases le_or_lt 0 (9 + u ^ 2 / 8 - 3 * Real.pi) with h | h
  · have := Real.sin_nonneg_of_nonneg_of_le_pi h (by linarith)
    linarith
  · have := Real.sin_le (x := -(9 + u ^ 2 / 8 - 3 * Real.pi)) (by linarith)
    rw [Real.sin_neg] at this
    linarith

lemma overlooked_sin_le_neg {u : ℝ} (h0 : 3 ≤ u) (h1 : u ≤ 4) :
    Real.sin (9 + u ^ 2 / 8) ≤ -(59 / 100) := by
  have hlo := Real.pi_gt_d2
  have hhi := Real.pi_lt_d2
  norm_num at hlo hhi
  have hu : 9 ≤ u ^ 2 := by nlinarith
  have hu' : u ^ 2 ≤ 16 := by nlinarith
  rw [sin_eq_neg_sin_sub_three_pi, ← Real.cos_sub_pi_div_two]
  have hc := Real.one_sub_sq_div_two_le_cos (x := 9 + u ^ 2 / 8 - 3 * Real.pi - Real.pi / 2)
  have hx1 : -(9 / 10) ≤ 9 + u ^ 2 / 8 - 3 * Real.pi - Real.pi / 2 := by linarith
  have hx2 : 9 + u ^ 2 / 8 - 3 * Real.pi - Real.pi / 2 ≤ 9 / 10 := by linarith
  have hsq : (9 + u ^ 2 / 8 - 3 * Real.pi - Real.pi / 2) ^ 2 ≤ 81 / 100 := by
    have : |9 + u ^ 2 / 8 - 3 * Real.pi - Real.pi / 2| ≤ 9 / 10 := abs_le.mpr ⟨hx1, hx2⟩
    have h2 := sq_le_sq' hx1 hx2
    norm_num at h2
    linarith
  linarith

lemma overlooked_integrable (a b : ℝ) :
    IntervalIntegrable (fun u : ℝ => Real.sin (9 + u ^ 2 / 8)) MeasureTheory.volume a b :=
  Continuous.intervalIntegrable (by fun_prop) a b

lemma overlooked_rise : 0 < ∫ u in (0 : ℝ)..(3 / 2), Real.sin (9 + u ^ 2 / 8) :=
  intervalIntegral_pos_of_pos_on (overlooked_integrable 0 (3 / 2))
    (fun u hu => overlooked_sin_pos hu.1 hu.2) (by norm_num)

lemma overlooked_fall : (∫ u in (3 / 2 : ℝ)..4, Real.sin (9 + u ^ 2 / 8)) < 0 := by
  have h1 : (∫ u in (3 / 2 : ℝ)..3, Real.sin (9 + u ^ 2 / 8))
      ≤ ∫ _u in (3 / 2 : ℝ)..3, (17 / 100 : ℝ) :=
    integral_mono_on (by norm_num) (overlooked_integrable _ _) intervalIntegrable_const
      (fun u hu => overlooked_sin_le_small hu.1 hu.2)
  have h2 : (∫ u in (3 : ℝ)..4, Real.sin (9 + u ^ 2 / 8))
      ≤ ∫ _u in (3 : ℝ)..4, (-(59 / 100) : ℝ) :=
    integral_mono_on (by norm_num) (overlooked_integrable _ _) intervalIntegrable_const
      (fun u hu => overlooked_sin_le_neg hu.1 hu.2)
  rw [integral_const] at h1 h2
  rw [← integral_add_adjacent_intervals (overlooked_integrable (3 / 2) 3)
    (overlooked_integrable 3 4)]
  norm_num at h1 h2
  linarith

/-- When the loops push no candidate, the rectangle is the hull of the two end points. -/
lemma get_bbox_of_end_points {F : Type} [LinearOrderedField F] [FloorRing F] (m : Libm F)
    (odrSpiral : F → F → SpiralOut F) (g : Spiral F)
    (hx : g.candidates m true = some []) (hy : g.candidates m false = some [])
    {p0 p1 : Point2D F} (h0 : g.get_point m odrSpiral g.s0 0 = some p0)
    (h1 : g.get_point m odrSpiral (g.s0 + g.length) 0 = some p1) :
    g.get_bbox m odrSpiral
      = some { min := { x := min p0.x p1.x, y := min p0.y p1.y },
               max := { x := max p0.x p1.x, y := max p0.y p1.y } } := by
  rw [get_bbox_eq m odrSpiral g hx hy, h0]
  simp only [Option.some_bind, List.append_nil, foldlM_bbox_step_cons, Spiral.bbox_step, h0, h1,
    Option.bind_eq_bind, Option.pure_def, std_min_eq_min, std_max_eq_max, min_self, max_self,
    List.foldlM_nil]

lemma overlooked_n_range (is_x : Bool) :
    ∃ v : ℝ, (Spiral.new (0 : ℝ) 0 0 9 4 0 1).n_end realLibm is_x = some v ∧
      n_range v = [-2, -1, 0, 1] := by
  have hpi := Real.pi_gt_three
  have hhi := Real.pi_lt_d2
  norm_num at hhi
  have hpos := Real.pi_pos
  refine ⟨_, n_end_new realLibm Real.pi_ne_zero 0 0 0 9 0 1 (by norm_num) is_x, ?_⟩
  have e : (2 * 0 * 4 + (1 - 0) / 4 * 4 * 4 : ℝ) = 4 := by norm_num
  apply n_range_of_abs_le_one
  · apply abs_pos.mpr
    cases is_x
    · simp only [realLibm, Bool.false_eq_true, if_false, e]
      positivity
    · simp only [realLibm, if_true, e]
      exact div_ne_zero (by linarith) (by positivity)
  · rw [abs_le]
    cases is_x
    · simp only [realLibm, Bool.false_eq_true, if_false, e]
      constructor
      · have : (0 : ℝ) ≤ 4 / (2 * Real.pi) := by positivity
        linarith
      · rw [div_le_one (by positivity)]
        linarith
    · simp only [realLibm, if_true, e]
      constructor
      · rw [le_div_iff₀ (by positivity)]
        linarith
      · rw [div_le_one (by positivity)]
        linarith

lemma overlooked_disc_x_neg {n : Int} (hn : -2 ≤ n) :
    (0 : ℝ) * 0 + (1 - 0) / 4 * (-2 * 9 - 2 * Real.pi * n + Real.pi) < 0 := by
  have hhi := Real.pi_lt_d2
  norm_num at hhi
  have hpos := Real.pi_pos
  have h : (-2 : ℝ) ≤ n := by exact_mod_cast hn
  nlinarith

lemma overlooked_disc_y_neg {n : Int} (hn : -2 ≤ n) :
    (0 : ℝ) * 0 + 2 * ((1 - 0) / 4) * (-9 - Real.pi * n) < 0 := by
  have hhi := Real.pi_lt_d2
  norm_num at hhi
  have hpos := Real.pi_pos
  have h : (-2 : ℝ) ≤ n := by exact_mod_cast hn
  nlinarith

lemma overlooked_candidates (is_x : Bool) :
    (Spiral.new (0 : ℝ) 0 0 9 4 0 1).candidates realLibm is_x = some [] := by
  obtain ⟨v, hv, hr⟩ := overlooked_n_range is_x
  rw [Spiral.candidates, hv]
  simp only [Option.bind_eq_bind, Option.some_bind, Option.pure_def, hr, Option.some.injEq,
    List.flatMap_eq_nil_iff]
  intro f hf n hn
  have hn2 : -2 ≤ n := by
    simp only [List.mem_cons, List.mem_singleton, List.not_mem_nil, or_false] at hn
    omega
  have hl : (4 : ℝ) ≠ 0 := by norm_num
  have hne : (0 : ℝ) ≠ 1 := by norm_num
  cases is_x
  · simp only [Spiral.f_s_extremas, Bool.false_eq_true, if_false, List.mem_cons,
      List.mem_singleton, List.not_mem_nil, or_false] at hf
    rcases hf with rfl | rfl
    · rw [f_s_y_extrema_1_new realLibm 0 0 0 9 hl hne n]
      simp only [realLibm]
      rw [fsqrt_of_neg _ (overlooked_disc_y_neg hn2)]
      rfl
    · rw [f_s_y_extrema_2_new realLibm 0 0 0 9 hl hne n]
      simp only [realLibm]
      rw [fsqrt_of_neg _ (overlooked_disc_y_neg hn2)]
      rfl
  · simp only [Spiral.f_s_extremas, if_true, List.mem_cons,
      List.mem_singleton, List.not_mem_nil, or_false] at hf
    rcases hf with rfl | rfl
    · rw [f_s_x_extrema_1_new realLibm 0 0 0 9 hl hne n]
      simp only [realLibm]
      rw [fsqrt_of_neg _ (overlooked_disc_x_neg hn2)]
      rfl
    · rw [f_s_x_extrema_2_new realLibm 0 0 0 9 hl hne n]
      simp only [realLibm]
      rw [fsqrt_of_neg _ (overlooked_disc_x_neg hn2)]
      rfl

/-- C2 (failing input). For the descriptor `s0 = 0, origin = (0, 0), hdg0 = 9, length = 4,
curv_start = 0, curv_end = 1` with the exact evaluator, the loops of `get_bbox` push no
candidate, so `s_extremas = [0, 4]` and the rectangle is the hull of the two end points;
the centerline point at `s = 3/2`, inside `[s0, s0 + length]`, lies above it:
`bbox.max.y < get_point(3/2, 0).y`.  The heading `9 + s^2 / 8` passes `3π` inside the
segment, a maximum of `y` that belongs to `n = -3`, outside the loop range `-2 .. 1`. -/
theorem get_bbox_misses_centerline_point :
    (0 : ℝ) < 4 ∧ (0 : ℝ) ≠ 1 ∧ (0 : ℝ) ≤ 3 / 2 ∧ (3 / 2 : ℝ) ≤ 0 + 4 ∧
    (Spiral.new (0 : ℝ) 0 0 9 4 0 1).s_extremas realLibm = some [0, 4] ∧
    ∃ b p,
      (Spiral.new (0 : ℝ) 0 0 9 4 0 1).get_bbox realLibm odrSpiralExact = some b ∧
      (Spiral.new (0 : ℝ) 0 0 9 4 0 1).get_point realLibm odrSpiralExact (3 / 2) 0 = some p ∧
      b.max.y < p.y := by
  have hl : (4 : ℝ) ≠ 0 := by norm_num
  have hne : (0 : ℝ) ≠ 1 := by norm_num
  have hss : (Spiral.new (0 : ℝ) 0 0 9 4 0 1).s_extremas realLibm = some [0, 4] := by
    rw [s_extremas_eq realLibm _ (overlooked_candidates true) (overlooked_candidates false)]
    norm_num
  have hp0 : (Spiral.new (0 : ℝ) 0 0 9 4 0 1).get_point realLibm odrSpiralExact
      (Spiral.new (0 : ℝ) 0 0 9 4 0 1).s0 0 = some { x := 0, y := 0 } := by
    rw [new_s0, get_point_exact 0 0 0 9 hl hne 0]
    simp
  have hp4 := get_point_exact 0 0 0 9 hl hne (0 + 4)
  have hbox := get_bbox_of_end_points realLibm odrSpiralExact _ (overlooked_candidates true)
    (overlooked_candidates false) hp0 hp4
  refine ⟨by norm_num, hne, by norm_num, by norm_num, hss, _, _, hbox,
    get_point_exact 0 0 0 9 hl hne (3 / 2), ?_⟩
  simp only [overlooked_heading, zero_add]
  have hsplit := integral_add_adjacent_intervals (overlooked_integrable 0 (3 / 2))
    (overlooked_integrable (3 / 2) 4)
  have hr := overlooked_rise
  have hf := overlooked_fall
  rw [max_lt_iff]
  constructor
  · exact hr
  · linarith

end Overlooked

/-! ## Soundness of the root formulas -/

section RootSoundness

/-- A number whose square is the discriminant gives, through the `+` branch, an arclength
offset at which the quadratic heading takes the target value. -/
lemma quadratic_plus_branch {h cs c r target : ℝ} (hc : c ≠ 0)
    (hr : r * r = cs * cs + 2 * c * (target - h)) :
    h + cs * ((r - cs) / c) + c * ((r - cs) / c) ^ 2 / 2 = target := by
  field_simp
  linear_combination (c ^ 2) * hr

lemma quadratic_minus_branch {h cs c r target : ℝ} (hc : c ≠ 0)
    (hr : r * r = cs * cs + 2 * c * (target - h)) :
    h + cs * (-(r + cs) / c) + c * (-(r + cs) / c) ^ 2 / 2 = target := by
  field_simp
  linear_combination (c ^ 2) * hr

/-- Conversely an offset at which the heading takes the target value is one of the two
branches. -/
lemma quadratic_roots {h cs c target u : ℝ} (hc : c ≠ 0)
    (hu : h + cs * u + c * u ^ 2 / 2 = target) :
    0 ≤ cs * cs + 2 * c * (target - h) ∧
    (u = (Real.sqrt (cs * cs + 2 * c * (target - h)) - cs) / c ∨
     u = -(Real.sqrt (cs * cs + 2 * c * (target - h)) + cs) / c) := by
  have hsq : (c * u + cs) ^ 2 = cs * cs + 2 * c * (target - h) := by
    rw [← hu]
    ring
  have hD : 0 ≤ cs * cs + 2 * c * (target - h) := by
    rw [← hsq]
    exact sq_nonneg _
  refine ⟨hD, ?_⟩
  have hs := Real.sq_sqrt hD
  have h2 : (c * u + cs) ^ 2 = (Real.sqrt (cs * cs + 2 * c * (target - h))) ^ 2 := by
    rw [hs, hsq]
  rcases sq_eq_sq_iff_eq_or_eq_neg.mp h2 with e | e
  · left
    field_simp
    linarith
  · right
    field_simp
    linarith

lemma f_s_x_extrema_1_eq {F : Type} [LinearOrderedField F] (m : Libm F) (g : Spiral F) {c : F}
    (hc : g.c_dot = some c) (hc0 : c ≠ 0) (n : Int) :
    g.f_s_x_extrema_1 m n
      = (fsqrt m (g.curv_start * g.curv_start + c * (-2 * g.hdg0 - 2 * m.pi * n + m.pi))).map
          (fun r => (r - g.curv_start) / c + g.s0) := by
  simp only [Spiral.f_s_x_extrema_1, hc, Option.bind_eq_bind, Option.some_bind, fdiv,
    if_neg hc0, Option.pure_def]
  cases fsqrt m (g.curv_start * g.curv_start + c * (-2 * g.hdg0 - 2 * m.pi * n + m.pi)) <;> rfl

lemma f_s_x_extrema_2_eq {F : Type} [LinearOrderedField F] (m : Libm F) (g : Spiral F) {c : F}
    (hc : g.c_dot = some c) (hc0 : c ≠ 0) (n : Int) :
    g.f_s_x_extrema_2 m n
      = (fsqrt m (g.curv_start * g.curv_start + c * (-2 * g.hdg0 - 2 * m.pi * n + m.pi))).map
          (fun r => -(r + g.curv_start) / c + g.s0) := by
  simp only [Spiral.f_s_x_extrema_2, hc, Option.bind_eq_bind, Option.some_bind, fdiv,
    if_neg hc0, Option.pure_def]
  cases fsqrt m (g.curv_start * g.curv_start + c * (-2 * g.hdg0 - 2 * m.pi * n + m.pi)) <;> rfl

lemma f_s_y_extrema_1_eq {F : Type} [LinearOrderedField F] (m : Libm F) (g : Spiral F) {c : F}
    (hc : g.c_dot = some c) (hc0 : c ≠ 0) (n : Int) :
    g.f_s_y_extrema_1 m n
      = (fsqrt m (g.curv_start * g.curv_start + 2 * c * (-g.hdg0 - m.pi * n))).map
          (fun r => -(r + g.curv_start) / c + g.s0) := by
  simp only [Spiral.f_s_y_extrema_1, hc, Option.bind_eq_bind, Option.some_bind, fdiv,
    if_neg hc0, Option.pure_def]
  cases fsqrt m (g.curv_start * g.curv_start + 2 * c * (-g.hdg0 - m.pi * n)) <;> rfl

lemma f_s_y_extrema_2_eq {F : Type} [LinearOrderedField F] (m : Libm F) (g : Spiral F) {c : F}
    (hc : g.c_dot = some c) (hc0 : c ≠ 0) (n : Int) :
    g.f_s_y_extrema_2 m n
      = (fsqrt m (g.curv_start * g.curv_start + 2 * c * (-g.hdg0 - m.pi * n))).map
          (fun r => (r - g.curv_start) / c + g.s0) := by
  simp only [Spiral.f_s_y_extrema_2, hc, Option.bind_eq_bind, Option.some_bind, fdiv,
    if_neg hc0, Option.pure_def]
  cases fsqrt m (g.curv_start * g.curv_start + 2 * c * (-g.hdg0 - m.pi * n)) <;> rfl

/-- Both branches for a target heading: values, heading at the values, and completeness. -/
lemma branches_sound (s0 : ℝ) {h cs c target D : ℝ} (hc : c ≠ 0)
    (hD : D = cs * cs + 2 * c * (target - h)) (hpos : 0 ≤ D) :
    (h + cs * ((Real.sqrt D - cs) / c + s0 - s0)
        + c * ((Real.sqrt D - cs) / c + s0 - s0) ^ 2 / 2 = target) ∧
    (h + cs * (-(Real.sqrt D + cs) / c + s0 - s0)
        + c * (-(Real.sqrt D + cs) / c + s0 - s0) ^ 2 / 2 = target) ∧
    ∀ s : ℝ, h + cs * (s - s0) + c * (s - s0) ^ 2 / 2 = target →
      s = (Real.sqrt D - cs) / c + s0 ∨ s = -(Real.sqrt D + cs) / c + s0 := by
  have hr : Real.sqrt D * Real.sqrt D = cs * cs + 2 * c * (target - h) := by
    rw [Real.mul_self_sqrt hpos, hD]
  refine ⟨?_, ?_, ?_⟩
  · rw [add_sub_cancel_right]
    exact quadratic_plus_branch hc hr
  · rw [add_sub_cancel_right]
    exact quadratic_minus_branch hc hr
  · intro s hs
    obtain ⟨-, h2⟩ := quadratic_roots hc hs
    rw [← hD] at h2
    rcases h2 with e | e
    · left
      linarith
    · right
      linarith

/-- C12. For every descriptor with a finite `c_dot ≠ 0` and every integer `n`, with
`a(s) = hdg0 + curv_start (s - s0) + c_dot (s - s0)^2 / 2`: when the discriminant is not
negative, `f_s_x_extrema_1(n)` and `f_s_x_extrema_2(n)` are the `+` and `-` roots of the one
quadratic `a(s) = π/2 + m π` with `m = -n`, so `cos (a(s)) = 0` at both; likewise
`f_s_y_extrema_2(n)` and `f_s_y_extrema_1(n)` are the `+` and `-` roots of `a(s) = m π`,
so `sin (a(s)) = 0` at both.  No other `s` solves either equation. -/
theorem root_formulas_sound (g : Spiral ℝ) (c : ℝ) (n : Int)
    (hc : g.c_dot = some c) (hc0 : c ≠ 0) :
    (0 ≤ g.curv_start * g.curv_start + c * (-2 * g.hdg0 - 2 * Real.pi * n + Real.pi) →
      ∃ s1 s2 : ℝ,
        g.f_s_x_extrema_1 realLibm n = some s1 ∧ g.f_s_x_extrema_2 realLibm n = some s2 ∧
        s1 = (Real.sqrt (g.curv_start * g.curv_start
                + c * (-2 * g.hdg0 - 2 * Real.pi * n + Real.pi)) - g.curv_start) / c + g.s0 ∧
        s2 = -(Real.sqrt (g.curv_start * g.curv_start
                + c * (-2 * g.hdg0 - 2 * Real.pi * n + Real.pi)) + g.curv_start) / c + g.s0 ∧
        g.hdg0 + g.curv_start * (s1 - g.s0) + c * (s1 - g.s0) ^ 2 / 2
          = Real.pi / 2 + ((-n : Int) : ℝ) * Real.pi ∧
        g.hdg0 + g.curv_start * (s2 - g.s0) + c * (s2 - g.s0) ^ 2 / 2
          = Real.pi / 2 + ((-n : Int) : ℝ) * Real.pi ∧
        Real.cos (g.hdg0 + g.curv_start * (s1 - g.s0) + c * (s1 - g.s0) ^ 2 / 2) = 0 ∧
        Real.cos (g.hdg0 + g.curv_start * (s2 - g.s0) + c * (s2 - g.s0) ^ 2 / 2) = 0 ∧
        ∀ s : ℝ, g.hdg0 + g.curv_start * (s - g.s0) + c * (s - g.s0) ^ 2 / 2
            = Real.pi / 2 + ((-n : Int) : ℝ) * Real.pi → s = s1 ∨ s = s2) ∧
    (0 ≤ g.curv_start * g.curv_start + 2 * c * (-g.hdg0 - Real.pi * n) →
      ∃ s1 s2 : ℝ,
        g.f_s_y_extrema_2 realLibm n = some s1 ∧ g.f_s_y_extrema_1 realLibm n = some s2 ∧
        s1 = (Real.sqrt (g.curv_start * g.curv_start
                + 2 * c * (-g.hdg0 - Real.pi * n)) - g.curv_start) / c + g.s0 ∧
        s2 = -(Real.sqrt (g.curv_start * g.curv_start
                + 2 * c * (-g.hdg0 - Real.pi * n)) + g.curv_start) / c + g.s0 ∧
        g.hdg0 + g.curv_start * (s1 - g.s0) + c * (s1 - g.s0) ^ 2 / 2
          = ((-n : Int) : ℝ) * Real.pi ∧
        g.hdg0 + g.curv_start * (s2 - g.s0) + c * (s2 - g.s0) ^ 2 / 2
          = ((-n : Int) : ℝ) * Real.pi ∧
        Real.sin (g.hdg0 + g.curv_start * (s1 - g.s0) + c * (s1 - g.s0) ^ 2 / 2) = 0 ∧
        Real.sin (g.hdg0 + g.curv_start * (s2 - g.s0) + c * (s2 - g.s0) ^ 2 / 2) = 0 ∧
        ∀ s : ℝ, g.hdg0 + g.curv_start * (s - g.s0) + c * (s - g.s0) ^ 2 / 2
            = ((-n : Int) : ℝ) * Real.pi → s = s1 ∨ s = s2) := by
  constructor
  · intro hpos
    have hD : g.curv_start * g.curv_start + c * (-2 * g.hdg0 - 2 * Real.pi * n + Real.pi)
        = g.curv_start * g.curv_start
          + 2 * c * (Real.pi / 2 + ((-n : Int) : ℝ) * Real.pi - g.hdg0) := by
      push_cast
      ring
    obtain ⟨b1, b2, b3⟩ := branches_sound g.s0 hc0 hD hpos
    have hcos : Real.cos (Real.pi / 2 + ((-n : Int) : ℝ) * Real.pi) = 0 := by
      rw [Real.cos_eq_zero_iff]
      exact ⟨-n, by ring⟩
    refine ⟨_, _, ?_, ?_, rfl, rfl, b1, b2, ?_, ?_, b3⟩
    · rw [f_s_x_extrema_1_eq realLibm g hc hc0 n]
      simp only [realLibm]
      rw [fsqrt_of_nonneg _ hpos]
      rfl
    · rw [f_s_x_extrema_2_eq realLibm g hc hc0 n]
      simp only [realLibm]
      rw [fsqrt_of_nonneg _ hpos]
      rfl
    · rw [b1, hcos]
    · rw [b2, hcos]
  · intro hpos
    have hD : g.curv_start * g.curv_start + 2 * c * (-g.hdg0 - Real.pi * n)
        = g.curv_start * g.curv_start + 2 * c * (((-n : Int) : ℝ) * Real.pi - g.hdg0) := by
      push_cast
      ring
    obtain ⟨b1, b2, b3⟩ := branches_sound g.s0 hc0 hD hpos
    have hsin : Real.sin (((-n : Int) : ℝ) * Real.pi) = 0 := Real.sin_int_mul_pi (-n)
    refine ⟨_, _, ?_, ?_, rfl, rfl, b1, b2, ?_, ?_, b3⟩
    · rw [f_s_y_extrema_2_eq realLibm g hc hc0 n]
      simp only [realLibm]
      rw [fsqrt_of_nonneg _ hpos]
      rfl
    · rw [f_s_y_extrema_1_eq realLibm g hc hc0 n]
      simp only [realLibm]
      rw [fsqrt_of_nonneg _ hpos]
      rfl
    · rw [b1, hsin]
    · rw [b2, hsin]

/-- C12, at the descriptor `s0 = 0, origin = (0, 0), hdg0 = 0, length = 10, curv_start = 0,
curv_end = 1/10` and `n = 0`, where the discriminant of the `y` formulas is `0`. -/
theorem root_formulas_sound_witness :
    ∃ s1 s2 : ℝ,
      (Spiral.new (0 : ℝ) 0 0 0 10 0 (1 / 10)).f_s_y_extrema_2 realLibm 0 = some s1 ∧
      (Spiral.new (0 : ℝ) 0 0 0 10 0 (1 / 10)).f_s_y_extrema_1 realLibm 0 = some s2 := by
  obtain ⟨s1, s2, h1, h2, -⟩ :=
    (root_formulas_sound (Spiral.new (0 : ℝ) 0 0 0 10 0 (1 / 10)) ((1 / 10 - 0) / 10) 0
      (new_c_dot 0 0 0 0 0 (1 / 10) (by norm_num)) (by norm_num)).2 (by simp)
  exact ⟨s1, s2, h1, h2⟩

end RootSoundness

/-! ## The loop range of `get_bbox` is not complete -/

section Incomplete

lemma overlooked_disc_bounds :
    0 < (0 : ℝ) * 0 + 2 * ((1 - 0) / 4) * (-9 - Real.pi * ((-3 : Int) : ℝ)) ∧
    (0 : ℝ) * 0 + 2 * ((1 - 0) / 4) * (-9 - Real.pi * ((-3 : Int) : ℝ)) < 1 := by
  have hlo := Real.pi_gt_d2
  have hhi := Real.pi_lt_d2
  norm_num at hlo hhi
  push_cast
  constructor <;> linarith

/-- C11 (failing input). For the descriptor `s0 = 0, origin = (0, 0), hdg0 = 9, length = 4,
curv_start = 0, curv_end = 1` the heading `9 + s^2 / 8` takes the value `3π` (a zero of the
sine, `m = 3`) at an arclength `s` inside the segment, the value of `f_s_y_extrema_2(-3)`;
the loop of `get_bbox` runs over `n = -2 .. 1` only, `s_extremas = [0, 4]`, and `s` is
not among the arclengths at which `get_bbox` evaluates `get_point`. -/
theorem get_bbox_skips_heading_extremum :
    (0 : ℝ) < 4 ∧ (0 : ℝ) ≠ 1 ∧
    (Spiral.new (0 : ℝ) 0 0 9 4 0 1).s_extremas realLibm = some [0, 4] ∧
    (∃ v : ℝ, (Spiral.new (0 : ℝ) 0 0 9 4 0 1).n_end realLibm false = some v ∧
      n_range v = [-2, -1, 0, 1] ∧ (-3 : Int) ∉ n_range v) ∧
    ∃ s : ℝ, 0 ≤ s ∧ s ≤ 0 + 4 ∧
      (Spiral.new (0 : ℝ) 0 0 9 4 0 1).f_s_y_extrema_2 realLibm (-3) = some s ∧
      (Spiral.new (0 : ℝ) 0 0 9 4 0 1).heading odrSpiralExact s = some (3 * Real.pi) ∧
      (9 : ℝ) + 0 * (s - 0) + (1 - 0) / 4 * (s - 0) ^ 2 / 2 = 3 * Real.pi ∧
      Real.sin (3 * Real.pi) = 0 ∧
      s ∉ ([0, 4] : List ℝ) := by
  have hl : (4 : ℝ) ≠ 0 := by norm_num
  have hne : (0 : ℝ) ≠ 1 := by norm_num
  have hss : (Spiral.new (0 : ℝ) 0 0 9 4 0 1).s_extremas realLibm = some [0, 4] := by
    rw [s_extremas_eq realLibm _ (overlooked_candidates true) (overlooked_candidates false)]
    norm_num
  obtain ⟨v, hv, hr⟩ := overlooked_n_range false
  obtain ⟨hD0, hD1⟩ := overlooked_disc_bounds
  have hc0 : ((1 : ℝ) - 0) / 4 ≠ 0 := by norm_num
  have hD : (0 : ℝ) * 0 + 2 * ((1 - 0) / 4) * (-9 - Real.pi * ((-3 : Int) : ℝ))
      = 0 * 0 + 2 * ((1 - 0) / 4) * (3 * Real.pi - 9) := by
    push_cast
    ring
  obtain ⟨b1, -, -⟩ := branches_sound 0 hc0 hD hD0.le
  have hsq0 := Real.sqrt_pos.mpr hD0
  have hsq1 : Real.sqrt ((0 : ℝ) * 0 + 2 * ((1 - 0) / 4) * (-9 - Real.pi * ((-3 : Int) : ℝ)))
      < 1 := by
    rw [Real.sqrt_lt' one_pos]
    linarith
  have hval : (Real.sqrt ((0 : ℝ) * 0 + 2 * ((1 - 0) / 4) * (-9 - Real.pi * ((-3 : Int) : ℝ)))
      - 0) / ((1 - 0) / 4) + 0
      = 4 * Real.sqrt ((0 : ℝ) * 0 + 2 * ((1 - 0) / 4) * (-9 - Real.pi * ((-3 : Int) : ℝ))) := by
    ring
  refine ⟨by norm_num, hne, hss, ⟨v, hv, hr, by rw [hr]; decide⟩,
    (Real.sqrt ((0 : ℝ) * 0 + 2 * ((1 - 0) / 4) * (-9 - Real.pi * ((-3 : Int) : ℝ))) - 0)
      / ((1 - 0) / 4) + 0, ?_, ?_, ?_, ?_, ?_, ?_, ?_⟩
  · rw [hval]
    linarith
  · rw [hval]
    linarith
  · rw [f_s_y_extrema_2_new realLibm 0 0 0 9 hl hne (-3)]
    simp only [realLibm]
    rw [fsqrt_of_nonneg _ hD0.le]
    rfl
  · rw [heading_new odrSpiralExact 0 0 0 9 hl hne (fun _ _ => rfl), b1]
  · exact b1
  · have := Real.sin_int_mul_pi 3
    simpa using this
  · rw [hval]
    simp only [List.mem_cons, List.mem_singleton, List.not_mem_nil, or_false, not_or]
    constructor <;> linarith

end Incomplete

/-! ## `get_bbox`: the end points -/

section EndPoints

variable {F : Type} [LinearOrderedField F] [FloorRing F]

end EndPoints

/-! ## Translation of the origin -/

section Translation

variable {F : Type} [LinearOrderedField F]

end Translation

/-! ## Rotation of the start heading -/

section Rotation

end Rotation

/-! ## The number of root computations of `get_bbox` -/

section RootCount

variable {F : Type} [LinearOrderedField F] [FloorRing F]

/-- The candidates pushed by `get_bbox` are the kept values of the enumerated pairs. -/
lemma candidates_eq_root_calls (m : Libm F) (g : Spiral F) (is_x : Bool) :
    g.candidates m is_x
      = (g.root_calls m is_x).map (fun l => l.flatMap (fun p => g.keep (p.1 p.2))) := by
  unfold Spiral.candidates Spiral.root_calls
  cases g.n_end m is_x with
  | none => rfl
  | some v =>
    simp only [Option.bind_eq_bind, Option.some_bind, Option.pure_def, Option.map_some',
      Option.some.injEq]
    induction g.f_s_extremas m is_x with
    | nil => rfl
    | cons f fs ih =>
      simp only [List.flatMap_cons, List.flatMap_append, ih, List.append_cancel_right_eq]
      induction n_range v with
      | nil => rfl
      | cons n ns ihn => simp only [List.flatMap_cons, List.map_cons, ihn, List.flatMap_cons]

lemma n_range_length (v : F) : ((n_range v).length : Int) = 2 * Int.ceil |v| + 2 := by
  have h0 : (0 : Int) ≤ Int.ceil |v| := Int.ceil_nonneg (abs_nonneg v)
  simp only [n_range, List.length_map, List.length_range, Int.floor_neg]
  omega

lemma root_calls_length (m : Libm F) (g : Spiral F) (is_x : Bool) {v : F}
    (hv : g.n_end m is_x = some v) :
    ∃ l, g.root_calls m is_x = some l ∧ (l.length : Int) = 4 * Int.ceil |v| + 4 := by
  have hlen := n_range_length v
  have hcalls : g.root_calls m is_x
      = some ((g.f_s_extremas m is_x).flatMap (fun f => (n_range v).map (fun n => (f, n)))) := by
    simp only [Spiral.root_calls, hv, Option.bind_eq_bind, Option.some_bind, Option.pure_def]
  refine ⟨_, hcalls, ?_⟩
  cases is_x <;>
    simp only [Spiral.f_s_extremas, Bool.false_eq_true, if_false, if_true, List.flatMap_cons,
      List.flatMap_nil, List.append_nil, List.length_append, List.length_map] <;>
    omega

omit [FloorRing F] in
/-- For `length ≠ 0` the two values of `n_end` depend on the segment through
`(curv_start + curv_end) * length` only. -/
lemma n_end_new_simplified (m : Libm F) (hpi : m.pi ≠ 0) (s0 x0 y0 hdg0 : F) {length : F}
    (cs ce : F) (hlen : length ≠ 0) :
    (Spiral.new s0 x0 y0 hdg0 length cs ce).n_end m true
      = some (((cs + ce) * length - m.pi) / (2 * m.pi)) ∧
    (Spiral.new s0 x0 y0 hdg0 length cs ce).n_end m false
      = some ((cs + ce) * length / (2 * m.pi)) := by
  have e : 2 * cs * length + (ce - cs) / length * length * length = (cs + ce) * length := by
    field_simp
    ring
  constructor
  · rw [n_end_new m hpi s0 x0 y0 hdg0 cs ce hlen true, if_pos rfl, e]
  · rw [n_end_new m hpi s0 x0 y0 hdg0 cs ce hlen false, if_neg (by simp), e]

lemma root_computations_new (m : Libm F) (hpi : m.pi ≠ 0) (s0 x0 y0 hdg0 : F) {length : F}
    (cs ce : F) (hlen : length ≠ 0) :
    ∃ k : ℕ, (Spiral.new s0 x0 y0 hdg0 length cs ce).root_computations m = some k ∧
      (k : Int) = 4 * Int.ceil |((cs + ce) * length - m.pi) / (2 * m.pi)|
        + 4 * Int.ceil |(cs + ce) * length / (2 * m.pi)| + 8 := by
  obtain ⟨hx, hy⟩ := n_end_new_simplified m hpi s0 x0 y0 hdg0 cs ce hlen
  obtain ⟨lx, hlx, hcx⟩ := root_calls_length m _ true hx
  obtain ⟨ly, hly, hcy⟩ := root_calls_length m _ false hy
  refine ⟨lx.length + ly.length, ?_, ?_⟩
  · simp only [Spiral.root_computations, hlx, hly, Option.bind_eq_bind, Option.some_bind,
      Option.pure_def]
  · push_cast
    omega

/-- For every `B` the descriptor with `length = 6 (B + 1)`, `curv_start = 0`, `curv_end = 1`
makes `get_bbox` enumerate more than `B` pairs, with every loop index in `-(B+2) .. B+1`. -/
lemma root_computations_exceed (B : ℕ) :
    ∃ k : ℕ,
      (Spiral.new (0 : ℝ) 0 0 0 (6 * ((B : ℝ) + 1)) 0 1).root_computations realLibm = some k ∧
      B < k ∧
      ∀ (is_x : Bool) (v : ℝ),
        (Spiral.new (0 : ℝ) 0 0 0 (6 * ((B : ℝ) + 1)) 0 1).n_end realLibm is_x = some v →
        ∀ n ∈ n_range v, -((B : Int) + 2) ≤ n ∧ n ≤ (B : Int) + 1 := by
  have hL : (0 : ℝ) < 6 * ((B : ℝ) + 1) := by positivity
  have hb : (0 : ℝ) ≤ (B : ℝ) + 1 := by positivity
  have hlo := Real.pi_gt_three
  have hhi := Real.pi_lt_d2
  norm_num at hhi
  have hpos := Real.pi_pos
  obtain ⟨hx, hy⟩ := n_end_new_simplified realLibm Real.pi_ne_zero 0 0 0 0 0 1 hL.ne'
  obtain ⟨k, hk, hcount⟩ := root_computations_new realLibm Real.pi_ne_zero 0 0 0 0 0 1 hL.ne'
  have e : realLibm.pi = Real.pi := rfl
  rw [e] at hx hy hcount
  -- the value of `n_end` for the `y` formulas lies between `20/21 (B + 1)` and `B + 1`
  have hy1 : 20 / 21 * ((B : ℝ) + 1) ≤ (0 + 1) * (6 * ((B : ℝ) + 1)) / (2 * Real.pi) := by
    rw [le_div_iff₀ (by positivity)]
    nlinarith
  have hy2 : (0 + 1) * (6 * ((B : ℝ) + 1)) / (2 * Real.pi) ≤ (B : ℝ) + 1 := by
    rw [div_le_iff₀ (by positivity)]
    nlinarith
  have hxe : ((0 + 1) * (6 * ((B : ℝ) + 1)) - Real.pi) / (2 * Real.pi)
      = (0 + 1) * (6 * ((B : ℝ) + 1)) / (2 * Real.pi) - 1 / 2 := by
    field_simp
    ring
  have habsy : |(0 + 1) * (6 * ((B : ℝ) + 1)) / (2 * Real.pi)| ≤ (B : ℝ) + 1 :=
    abs_le.mpr ⟨by linarith, hy2⟩
  have habsx : |((0 + 1) * (6 * ((B : ℝ) + 1)) - Real.pi) / (2 * Real.pi)| ≤ (B : ℝ) + 1 := by
    rw [hxe]
    exact abs_le.mpr ⟨by linarith, by linarith⟩
  have range_bound : ∀ v : ℝ, |v| ≤ (B : ℝ) + 1 → ∀ n ∈ n_range v,
      -((B : Int) + 2) ≤ n ∧ n ≤ (B : Int) + 1 := by
    intro v hv n hn
    obtain ⟨h1, h2⟩ := (mem_n_range v n).mp hn
    have hc : Int.ceil |v| ≤ (B : Int) + 1 := by
      rw [Int.ceil_le]
      push_cast
      exact hv
    have hf : -((B : Int) + 1) ≤ Int.floor (-|v|) := by
      rw [Int.le_floor]
      push_cast
      linarith
    constructor <;> omega
  refine ⟨k, hk, ?_, ?_⟩
  · have h1 : 20 / 21 * ((B : ℝ) + 1)
        ≤ (Int.ceil |(0 + 1) * (6 * ((B : ℝ) + 1)) / (2 * Real.pi)| : ℝ) :=
      (hy1.trans (le_abs_self _)).trans (Int.le_ceil _)
    have h2 : (0 : Int) ≤ Int.ceil |((0 + 1) * (6 * ((B : ℝ) + 1)) - Real.pi)
        / (2 * Real.pi)| := Int.ceil_nonneg (abs_nonneg _)
    have h3 : (B : ℝ) < 4 * (Int.ceil |(0 + 1) * (6 * ((B : ℝ) + 1)) / (2 * Real.pi)| : ℝ)
        + 8 := by linarith
    have h4 : (B : Int) < 4 * Int.ceil |(0 + 1) * (6 * ((B : ℝ) + 1)) / (2 * Real.pi)| + 8 := by
      exact_mod_cast h3
    omega
  · intro is_x v hv
    cases is_x
    · rw [hy] at hv
      cases hv
      exact range_bound _ habsy
    · rw [hx] at hv
      cases hv
      exact range_bound _ habsx

/-- C14 (counterexample). No constant bounds the number of root computations of `get_bbox`
over the descriptors with `length > 0`.  For every `B` the descriptor `s0 = 0,
origin = (0, 0), hdg0 = 0, length = 6 (B + 1), curv_start = 0, curv_end = 1` makes the loops
enumerate more than `B` pairs of a root formula and an integer `n`, while every loop index
stays between `-(B + 2)` and `B + 1`. -/
theorem root_computations_unbounded :
    (¬ ∃ B : ℕ, ∀ s0 x0 y0 hdg0 length cs ce : ℝ, 0 < length →
      ∀ k : ℕ, (Spiral.new s0 x0 y0 hdg0 length cs ce).root_computations realLibm = some k →
        k ≤ B) ∧
    (∀ B : ℕ, ∃ k : ℕ,
      (Spiral.new (0 : ℝ) 0 0 0 (6 * ((B : ℝ) + 1)) 0 1).root_computations realLibm = some k ∧
      B < k ∧
      ∀ (is_x : Bool) (v : ℝ),
        (Spiral.new (0 : ℝ) 0 0 0 (6 * ((B : ℝ) + 1)) 0 1).n_end realLibm is_x = some v →
        ∀ n ∈ n_range v, -((B : Int) + 2) ≤ n ∧ n ≤ (B : Int) + 1) := by
  refine ⟨?_, root_computations_exceed⟩
  rintro ⟨B, hB⟩
  obtain ⟨k, hk, hlt, -⟩ := root_computations_exceed B
  have hL : (0 : ℝ) < 6 * ((B : ℝ) + 1) := by positivity
  have hle := hB 0 0 0 0 (6 * ((B : ℝ) + 1)) 0 1 hL k hk
  omega

/-- The two values of `n_end` are bounded through `(|curv_start| + |curv_end|) length`. -/
lemma n_end_abs_le (cs ce : ℝ) {length : ℝ} (hlen : 0 < length) :
    |(cs + ce) * length / (2 * Real.pi)| ≤ (|cs| + |ce|) * length / 6 ∧
    |((cs + ce) * length - Real.pi) / (2 * Real.pi)| ≤ (|cs| + |ce|) * length / 6 + 1 / 2 := by
  have hpi := Real.pi_gt_three
  have hS : |(cs + ce) * length| ≤ (|cs| + |ce|) * length := by
    rw [abs_mul, abs_of_pos hlen]
    exact mul_le_mul_of_nonneg_right (abs_add cs ce) hlen.le
  have h0 : 0 ≤ |(cs + ce) * length| := abs_nonneg _
  have h2pi : (0 : ℝ) < 2 * Real.pi := by positivity
  constructor
  · rw [abs_div, abs_of_pos h2pi, div_le_iff₀ h2pi]
    nlinarith
  · rw [abs_div, abs_of_pos h2pi, div_le_iff₀ h2pi]
    have h1 : |(cs + ce) * length - Real.pi| ≤ |(cs + ce) * length| + Real.pi := by
      have := abs_sub ((cs + ce) * length) Real.pi
      rwa [abs_of_pos Real.pi_pos] at this
    nlinarith

/-- C14 (amended). For every descriptor with `length > 0` and
`(|curv_start| + |curv_end|) length ≤ 2^31`, every index `n` of the loops of `get_bbox`
lies in the range of a 32-bit `int`, and one call enumerates `k` pairs of a root formula
and an integer `n` with `8 ≤ k ≤ 4 (|curv_start| + |curv_end|) length + 24`: the number of
root computations is bounded linearly in the length of the segment, not by a constant. -/
theorem root_computations_count (s0 x0 y0 hdg0 length cs ce : ℝ)
    (hlen : 0 < length) (hrange : (|cs| + |ce|) * length ≤ 2 ^ 31) :
    (∀ (is_x : Bool) (v : ℝ),
      (Spiral.new s0 x0 y0 hdg0 length cs ce).n_end realLibm is_x = some v →
      ∀ n ∈ n_range v, -(2 : Int) ^ 31 ≤ n ∧ n + 1 ≤ 2 ^ 31 - 1) ∧
    ∃ k : ℕ, (Spiral.new s0 x0 y0 hdg0 length cs ce).root_computations realLibm = some k ∧
      8 ≤ k ∧ (k : ℝ) ≤ 4 * ((|cs| + |ce|) * length) + 24 := by
  obtain ⟨hx, hy⟩ := n_end_new_simplified realLibm Real.pi_ne_zero s0 x0 y0 hdg0 cs ce hlen.ne'
  obtain ⟨k, hk, hcount⟩ :=
    root_computations_new realLibm Real.pi_ne_zero s0 x0 y0 hdg0 cs ce hlen.ne'
  have e : realLibm.pi = Real.pi := rfl
  rw [e] at hx hy hcount
  obtain ⟨hby, hbx⟩ := n_end_abs_le cs ce hlen
  have hS : 0 ≤ (|cs| + |ce|) * length :=
    mul_nonneg (add_nonneg (abs_nonneg _) (abs_nonneg _)) hlen.le
  have hcx0 : (0 : Int) ≤ Int.ceil |((cs + ce) * length - Real.pi) / (2 * Real.pi)| :=
    Int.ceil_nonneg (abs_nonneg _)
  have hcy0 : (0 : Int) ≤ Int.ceil |(cs + ce) * length / (2 * Real.pi)| :=
    Int.ceil_nonneg (abs_nonneg _)
  have hcx1 := Int.ceil_lt_add_one |((cs + ce) * length - Real.pi) / (2 * Real.pi)|
  have hcy1 := Int.ceil_lt_add_one |(cs + ce) * length / (2 * Real.pi)|
  have range_bound : ∀ v : ℝ, |v| ≤ (|cs| + |ce|) * length / 6 + 1 / 2 → ∀ n ∈ n_range v,
      -(2 : Int) ^ 31 ≤ n ∧ n + 1 ≤ 2 ^ 31 - 1 := by
    intro v hv n hn
    obtain ⟨h1, h2⟩ := (mem_n_range v n).mp hn
    have hc : Int.ceil |v| ≤ 2 ^ 29 := by
      rw [Int.ceil_le]
      push_cast
      norm_num at hrange ⊢
      linarith
    have hf : Int.floor (-|v|) = -Int.ceil |v| := Int.floor_neg
    norm_num at hc ⊢
    constructor <;> omega
  refine ⟨?_, k, hk, ?_, ?_⟩
  · intro is_x v hv
    cases is_x
    · rw [hy] at hv
      cases hv
      exact range_bound _ (hby.trans (by linarith))
    · rw [hx] at hv
      cases hv
      exact range_bound _ hbx
  · omega
  · have hk' : (k : ℝ) = 4 * (Int.ceil |((cs + ce) * length - Real.pi) / (2 * Real.pi)| : ℝ)
        + 4 * (Int.ceil |(cs + ce) * length / (2 * Real.pi)| : ℝ) + 8 := by
      exact_mod_cast hcount
    rw [hk']
    linarith

/-- C14 (amended), at the descriptor `s0 = 0, origin = (0, 0), hdg0 = 0, length = 10,
curv_start = 0, curv_end = 1/10`, where `(|curv_start| + |curv_end|) length = 1`. -/
theorem root_computations_count_witness :
    ∃ k : ℕ, (Spiral.new (0 : ℝ) 0 0 0 10 0 (1 / 10)).root_computations realLibm = some k ∧
      8 ≤ k ∧ (k : ℝ) ≤ 4 * ((|(0 : ℝ)| + |(1 / 10 : ℝ)|) * 10) + 24 :=
  (root_computations_count 0 0 0 0 10 0 (1 / 10) (by norm_num)
    (by rw [abs_zero, abs_of_pos (by norm_num : (0 : ℝ) < 1 / 10)]; norm_num)).2

end RootCount

end odr
